import Mathlib

/-!
# Verification of the xapo_sdk payload codec and widget builders

This file gives a shallow embedding, in Lean 4, of the three Python modules of
the `python-sdk` repository (`xapo_utils.py`, `xapo_tools.py`,
`micro_payment.py`) and proves properties of that embedding.

Modelling conventions:

* A Python `str` is modelled as a `List Nat` of Unicode code points; a byte
  string is a `List Nat` of values below 256.
* The AES primitive from `Crypto.Cipher` is an external library; it is
  modelled by the `BlockCipher` structure: an arbitrary keyed block cipher on
  16-byte blocks together with its standard contract (a 16-byte block maps to
  a 16-byte block of bytes and decryption inverts encryption).  PyCrypto's
  `AES.new` accepts keys of exactly 16, 24 or 32 bytes and raises `ValueError`
  otherwise; this key-size validation is part of the model.
* The code runs under Python 2 (`from future.standard_library import hooks`),
  where passing a `unicode` string to the C cipher implicitly encodes it with
  the `ascii` codec and raises an encoding error when a code point is not
  below 128.  `asciiEncode` models that implicit step.
* Fallible operations return `Except EncError _`.
-/

/-- Code points of a Lean string literal, used to transcribe the Python
string literals of the source. -/
def codes (s : String) : List Nat :=
  s.toList.map Char.toNat

namespace xapo_utils

/-- `xapo_utils._pkcs7_padding(bytestring, k)`: with `l = len(bytestring)` and
`val = k - (l % k)`, return `bytestring + bytearray([val] * val).decode()`,
i.e. the input followed by `val` copies of the code point `val`. -/
def pkcs7_padding (bytestring : List Nat) (k : Nat) : List Nat :=
  let l := bytestring.length
  let val := k - l % k
  bytestring ++ List.replicate val val

end xapo_utils

namespace micro_payment

/-- `micro_payment._pkcs7_encode(bytestring, k)`: duplicated copy of the
PKCS#7 helper, with `l = len(bytestring)`, `val = k - (l % k)`, returning
`bytestring + bytearray([val] * val).decode()`. -/
def pkcs7_encode (bytestring : List Nat) (k : Nat) : List Nat :=
  let l := bytestring.length
  let val := k - l % k
  bytestring ++ List.replicate val val

end micro_payment

/-- Errors surfaced by the codec pipeline: PyCrypto's `ValueError` for an AES
key that is not 16, 24 or 32 bytes long, and the Python 2 implicit-`ascii`
encoding failure (`UnicodeEncodeError`). -/
inductive EncError where
  | invalidKeyLength : EncError
  | encodingError : EncError
deriving DecidableEq

deriving instance DecidableEq for Except

/-- Python 2 implicit `ascii` encoding of a `unicode` string, as performed
when a string is handed to the PyCrypto C extension: succeeds (byte-for-code
point) exactly when every code point is below 128. -/
def asciiEncode (s : List Nat) : Except EncError (List Nat) :=
  if s.all (fun c => c < 128) then .ok s else .error .encodingError

/-- Model of the external AES primitive of `Crypto.Cipher`: a keyed block
cipher on 16-byte blocks together with its contract.  `enc key` is the
per-block encryption `cipher.encrypt` and `dec key` the per-block decryption
`cipher.decrypt` of `AES.new(key=key, mode=AES.MODE_ECB)`. -/
structure BlockCipher where
  enc : List Nat → List Nat → List Nat
  dec : List Nat → List Nat → List Nat
  enc_length : ∀ key b, b.length = 16 → (enc key b).length = 16
  enc_bytes : ∀ key b, b.length = 16 → (∀ x ∈ b, x < 256) →
    ∀ x ∈ enc key b, x < 256
  dec_enc : ∀ key b, b.length = 16 → dec key (enc key b) = b

/-- PyCrypto's AES key-size validation: `AES.new` accepts keys of 16, 24 or
32 bytes (AES-128/192/256) and raises `ValueError` otherwise. -/
def aesKeySizeOk (n : Nat) : Bool :=
  n = 16 || n = 24 || n = 32

/-- `MODE_ECB` encryption: the byte string is processed in independent
16-byte blocks, each passed to the per-block cipher. -/
def ecbEncrypt (f : List Nat → List Nat) : List Nat → List Nat
  | [] => []
  | b :: rest => f ((b :: rest).take 16) ++ ecbEncrypt f ((b :: rest).drop 16)
termination_by l => l.length
decreasing_by simp; omega

/-- `MODE_ECB` decryption: 16-byte blocks passed to the per-block inverse. -/
def ecbDecrypt (g : List Nat → List Nat) : List Nat → List Nat
  | [] => []
  | b :: rest => g ((b :: rest).take 16) ++ ecbDecrypt g ((b :: rest).drop 16)
termination_by l => l.length
decreasing_by simp; omega

/-- Value-to-character table of the standard base64 alphabet
(`A`-`Z`, `a`-`z`, `0`-`9`, `+`, `/`). -/
def b64Char (v : Nat) : Nat :=
  if v < 26 then 65 + v
  else if v < 52 then 97 + (v - 26)
  else if v < 62 then 48 + (v - 52)
  else if v = 62 then 43
  else 47

/-- `base64.b64encode`: groups of three bytes become four alphabet
characters; a trailing group of one or two bytes is completed with `=`
padding (61). -/
def b64encode : List Nat → List Nat
  | a :: b :: c :: rest =>
    b64Char (a / 4) :: b64Char (a % 4 * 16 + b / 16) ::
      b64Char (b % 16 * 4 + c / 64) :: b64Char (c % 64) :: b64encode rest
  | [a, b] => [b64Char (a / 4), b64Char (a % 4 * 16 + b / 16),
      b64Char (b % 16 * 4), 61]
  | [a] => [b64Char (a / 4), b64Char (a % 4 * 16), 61, 61]
  | [] => []

/-- Character-to-value table for base64 decoding. -/
def b64Val (c : Nat) : Option Nat :=
  if 65 ≤ c ∧ c ≤ 90 then some (c - 65)
  else if 97 ≤ c ∧ c ≤ 122 then some (26 + (c - 97))
  else if 48 ≤ c ∧ c ≤ 57 then some (52 + (c - 48))
  else if c = 43 then some 62
  else if c = 47 then some 63
  else none

/-- Strict base64 decoding (`base64.b64decode` on well-formed input):
four-character groups are mapped back to three bytes, with `=` padding on
the final group yielding one or two bytes. -/
def b64decode : List Nat → Option (List Nat)
  | [] => some []
  | c1 :: c2 :: c3 :: c4 :: rest =>
    (b64Val c1).bind (fun v1 =>
      (b64Val c2).bind (fun v2 =>
        if c3 = 61 ∧ c4 = 61 ∧ rest = [] then some [v1 * 4 + v2 / 16]
        else
          (b64Val c3).bind (fun v3 =>
            if c4 = 61 ∧ rest = [] then
              some [v1 * 4 + v2 / 16, v2 % 16 * 16 + v3 / 4]
            else
              (b64Val c4).bind (fun v4 =>
                (b64decode rest).map
                  (fun tail => (v1 * 4 + v2 / 16) ::
                    (v2 % 16 * 16 + v3 / 4) :: (v3 % 4 * 64 + v4) :: tail)))))
  | _ => none

namespace xapo_utils

/-- `xapo_utils.encrypt(payload, app_secret)`:
`cipher = AES.new(key=app_secret, mode=AES.MODE_ECB)` (implicit `ascii`
encoding of the key, then AES key-size validation), then
`padded_payload = _pkcs7_padding(payload)` (default `k=16`),
`encrypted_payload = cipher.encrypt(padded_payload)` (implicit `ascii`
encoding of the padded text, then ECB encryption), and finally
`base64.b64encode(encrypted_payload)`. -/
def encrypt (C : BlockCipher) (payload app_secret : List Nat) :
    Except EncError (List Nat) :=
  match asciiEncode app_secret with
  | .error e => .error e
  | .ok key =>
    if aesKeySizeOk key.length then
      match asciiEncode (pkcs7_padding payload 16) with
      | .error e => .error e
      | .ok padded => .ok (b64encode (ecbEncrypt (C.enc key) padded))
    else .error .invalidKeyLength

end xapo_utils

namespace micro_payment

/-- `micro_payment._encrypt(payload, app_secret)`: duplicated copy of the
codec, `AES.new(key=app_secret, mode=AES.MODE_ECB)` followed by
`_pkcs7_encode(payload)`, `cipher.encrypt`, `base64.b64encode`. -/
def encrypt (C : BlockCipher) (payload app_secret : List Nat) :
    Except EncError (List Nat) :=
  match asciiEncode app_secret with
  | .error e => .error e
  | .ok key =>
    if aesKeySizeOk key.length then
      match asciiEncode (pkcs7_encode payload 16) with
      | .error e => .error e
      | .ok padded => .ok (b64encode (ecbEncrypt (C.enc key) padded))
    else .error .invalidKeyLength

end micro_payment

/-- A concrete instance of the cipher contract (each block maps to itself),
used to evaluate the pipeline on explicit inputs. -/
def idCipher : BlockCipher where
  enc := fun _ b => b
  dec := fun _ b => b
  enc_length := fun _ _ h => h
  enc_bytes := fun _ _ _ h => h
  dec_enc := fun _ _ _ => rfl

/-- Claim C1: for every input byte string of length `n`, the PKCS#7 padding
step (`_pkcs7_padding` / `_pkcs7_encode` with `k = 16`) returns the input
extended by `p` appended bytes each equal to `p`, where `1 ≤ p ≤ 16` and
`(n + p) % 16 = 0`; in particular, when `n % 16 = 0` it appends a full
16-byte block of value 16, never zero padding. -/
theorem claim_C1_padding_correct (bs : List Nat) :
    ∃ p, xapo_utils.pkcs7_padding bs 16 = bs ++ List.replicate p p ∧
      micro_payment.pkcs7_encode bs 16 = bs ++ List.replicate p p ∧
      1 ≤ p ∧ p ≤ 16 ∧ (bs.length + p) % 16 = 0 ∧
      (bs.length % 16 = 0 → p = 16) := by
  refine ⟨16 - bs.length % 16, rfl, rfl, ?_, ?_, ?_, ?_⟩ <;> omega

/-- Claim C9: the duplicated codec helpers are extensionally equal: for every
input and block size, `_pkcs7_encode` agrees with `_pkcs7_padding`, and for
every cipher, payload and secret, the duplicated `_encrypt` agrees with
`xapo_utils.encrypt`. -/
theorem claim_C9_duplicated_codec_equal :
    (∀ bytestring k, micro_payment.pkcs7_encode bytestring k =
      xapo_utils.pkcs7_padding bytestring k) ∧
    (∀ (C : BlockCipher) payload app_secret,
      micro_payment.encrypt C payload app_secret =
        xapo_utils.encrypt C payload app_secret) :=
  ⟨fun _ _ => rfl, fun _ _ _ => rfl⟩

/-- Counterexample to claim C2: with the 24-byte secret
`"012345678901234567890123"`, `encrypt` succeeds and produces output, so it
is not the case that a secret of length other than 16 fails with
`InvalidKeyLength`. -/
theorem claim_C2_counterexample :
    (∃ out, xapo_utils.encrypt idCipher (codes "x")
      (codes "012345678901234567890123") = .ok out) ∧
    (codes "012345678901234567890123").length ≠ 16 := by
  exact ⟨⟨_, rfl⟩, by decide⟩

/-- Claim C2 as amended: for an ASCII secret, `encrypt` fails with
`InvalidKeyLength` (producing no output) if and only if the secret's length
is not one of the AES key sizes 16, 24 or 32; in particular a 16-byte secret
never raises a key-length error. -/
theorem claim_C2_key_length (C : BlockCipher) (payload app_secret : List Nat)
    (h : ∀ c ∈ app_secret, c < 128) :
    (xapo_utils.encrypt C payload app_secret = .error .invalidKeyLength ↔
      ¬(app_secret.length = 16 ∨ app_secret.length = 24 ∨
        app_secret.length = 32)) := by
  have hall : app_secret.all (fun c => c < 128) = true := by
    rw [List.all_eq_true]; intro c hc; simpa using h c hc
  unfold xapo_utils.encrypt asciiEncode aesKeySizeOk
  rw [if_pos hall]
  by_cases hk : app_secret.length = 16 ∨ app_secret.length = 24 ∨
      app_secret.length = 32
  · simp only [hk, not_true_eq_false, iff_false]
    have : (decide (app_secret.length = 16) || decide (app_secret.length = 24)
        || decide (app_secret.length = 32)) = true := by
      rcases hk with h1 | h1 | h1 <;> simp [h1]
    rw [if_pos this]
    split
    · rename_i e heq
      split at heq
      · simp at heq
      · simp only [Except.error.injEq] at heq
        subst heq
        simp
    · simp
  · simp only [hk, not_false_eq_true, iff_true]
    have : (decide (app_secret.length = 16) || decide (app_secret.length = 24)
        || decide (app_secret.length = 32)) = false := by
      push_neg at hk
      simp [hk.1, hk.2.1, hk.2.2]
    rw [if_neg (by simp [this])]

/-- Witness for `claim_C2_key_length` at a concrete 16-byte ASCII secret. -/
theorem claim_C2_key_length_witness :
    (∀ c ∈ codes "0123456789abcdef", c < 128) ∧
    (xapo_utils.encrypt idCipher (codes "payload")
        (codes "0123456789abcdef") = .error .invalidKeyLength ↔
      ¬((codes "0123456789abcdef").length = 16 ∨
        (codes "0123456789abcdef").length = 24 ∨
        (codes "0123456789abcdef").length = 32)) :=
  ⟨by decide,
    claim_C2_key_length idCipher (codes "payload") _ (by decide)⟩

/-- UTF-8 encoding of a single Unicode scalar value (1 to 4 bytes). -/
def utf8EncodeChar (c : Nat) : List Nat :=
  if c < 128 then [c]
  else if c < 2048 then [192 + c / 64, 128 + c % 64]
  else if c < 65536 then [224 + c / 4096, 128 + c / 64 % 64, 128 + c % 64]
  else [240 + c / 262144, 128 + c / 4096 % 64, 128 + c / 64 % 64,
    128 + c % 64]

/-- UTF-8 encoding of a string of code points. -/
def utf8Encode (s : List Nat) : List Nat :=
  (s.map utf8EncodeChar).flatten

/-- On ASCII strings the UTF-8 encoding is the identity byte-for-byte, so
character count and UTF-8 byte length agree. -/
theorem utf8Encode_ascii (s : List Nat) (h : ∀ c ∈ s, c < 128) :
    utf8Encode s = s := by
  induction s with
  | nil => rfl
  | cons c rest ih =>
    have hc : c < 128 := h c (List.mem_cons_self c rest)
    simp only [utf8Encode, List.map_cons, List.flatten_cons, utf8EncodeChar,
      if_pos hc]
    have := ih (fun x hx => h x (List.mem_cons_of_mem c hx))
    simp only [utf8Encode] at this
    simp [this]

/-- Counterexample to claim C5: for the one-character payload `"é"`
(code point 233, UTF-8 byte length 2), the code computes a padding length of
15 from the character count, whereas the byte length of the UTF-8 encoding
dictates 14; the UTF-8 byte length of the padded result is 17, not a
multiple of 16, and `encrypt` fails with an encoding error rather than
handing a 16-byte multiple to the cipher. -/
theorem claim_C5_counterexample :
    (xapo_utils.pkcs7_padding [233] 16).length = 16 ∧
    16 - ([233] : List Nat).length % 16 = 15 ∧
    16 - (utf8Encode [233]).length % 16 = 14 ∧
    (utf8Encode (xapo_utils.pkcs7_padding [233] 16)).length % 16 = 1 ∧
    xapo_utils.encrypt idCipher [233] (codes "0123456789abcdef") =
      .error .encodingError := by
  refine ⟨by decide, by decide, by decide, by decide, ?_⟩
  decide

/-- Claim C5 as amended: the padding length is computed from the character
count of the payload; a payload containing any non-ASCII character (in
particular any multi-byte character) fails with an encoding error before any
byte sequence reaches the cipher, while for ASCII payloads the character
count equals the UTF-8 byte length and the padded byte sequence handed to
the cipher has a length that is a multiple of 16 bytes. -/
theorem claim_C5_byte_level (C : BlockCipher) (payload app_secret : List Nat)
    (hsec : ∀ c ∈ app_secret, c < 128) (hlen : app_secret.length = 16) :
    (¬(∀ c ∈ payload, c < 128) →
      xapo_utils.encrypt C payload app_secret = .error .encodingError) ∧
    ((∀ c ∈ payload, c < 128) →
      utf8Encode payload = payload ∧
      asciiEncode (xapo_utils.pkcs7_padding payload 16) =
        .ok (xapo_utils.pkcs7_padding payload 16) ∧
      (xapo_utils.pkcs7_padding payload 16).length % 16 = 0) := by
  have hsall : app_secret.all (fun c => c < 128) = true := by
    rw [List.all_eq_true]; intro c hc; simpa using hsec c hc
  have hsize : aesKeySizeOk app_secret.length = true := by
    simp [aesKeySizeOk, hlen]
  constructor
  · intro hbad
    have : (xapo_utils.pkcs7_padding payload 16).all
        (fun c => c < 128) = false := by
      rw [List.all_eq_false]
      push_neg at hbad
      obtain ⟨c, hc, hge⟩ := hbad
      exact ⟨c, by simp [xapo_utils.pkcs7_padding, hc], by simpa using hge⟩
    unfold xapo_utils.encrypt asciiEncode
    rw [if_pos hsall]
    simp [hsize, this]
  · intro hgood
    have hpad : (xapo_utils.pkcs7_padding payload 16).all
        (fun c => c < 128) = true := by
      rw [List.all_eq_true]
      intro c hc
      simp only [xapo_utils.pkcs7_padding, List.mem_append] at hc
      rcases hc with hc | hc
      · simpa using hgood c hc
      · have := List.eq_of_mem_replicate hc
        simp only [decide_eq_true_eq]
        omega
    refine ⟨utf8Encode_ascii payload hgood, ?_, ?_⟩
    · simp [asciiEncode, hpad]
    · simp only [xapo_utils.pkcs7_padding, List.length_append,
        List.length_replicate]
      omega

/-- Witness for `claim_C5_byte_level` at a concrete ASCII payload and
16-byte key. -/
theorem claim_C5_byte_level_witness :
    ((∀ c ∈ codes "0123456789abcdef", c < 128) ∧
      (codes "0123456789abcdef").length = 16) ∧
    ((¬(∀ c ∈ codes "abc", c < 128) →
      xapo_utils.encrypt idCipher (codes "abc") (codes "0123456789abcdef") =
        .error .encodingError) ∧
    ((∀ c ∈ codes "abc", c < 128) →
      utf8Encode (codes "abc") = codes "abc" ∧
      asciiEncode (xapo_utils.pkcs7_padding (codes "abc") 16) =
        .ok (xapo_utils.pkcs7_padding (codes "abc") 16) ∧
      (xapo_utils.pkcs7_padding (codes "abc") 16).length % 16 = 0)) :=
  ⟨⟨by decide, by decide⟩,
    claim_C5_byte_level idCipher (codes "abc") _ (by decide) (by decide)⟩


theorem b64Val_b64Char : ∀ v < 64, b64Val (b64Char v) = some v := by decide

theorem b64Char_ne_61 : ∀ v < 64, b64Char v ≠ 61 := by decide

/-- Decoding inverts encoding on byte strings. -/
theorem b64decode_b64encode (bs : List Nat) (hb : ∀ x ∈ bs, x < 256) :
    b64decode (b64encode bs) = some bs := by
  suffices H : ∀ n (l : List Nat), l.length ≤ n → (∀ x ∈ l, x < 256) →
      b64decode (b64encode l) = some l from H bs.length bs le_rfl hb
  intro n
  induction n with
  | zero =>
    intro l hlen _
    have : l = [] := List.eq_nil_of_length_eq_zero (by omega)
    subst this
    rfl
  | succ n ih =>
    intro l hlen hbytes
    match l with
    | [] => rfl
    | [a] =>
      have ha : a < 256 := hbytes a (by simp)
      have e1 := b64Val_b64Char (a / 4) (by omega)
      have e2 := b64Val_b64Char (a % 4 * 16) (by omega)
      rw [b64encode, b64decode]
      simp only [e1, e2, Option.some_bind]
      rw [if_pos (by simp)]
      congr 1
      have : a / 4 * 4 + a % 4 * 16 / 16 = a := by omega
      rw [this]
    | [a, b] =>
      have ha : a < 256 := hbytes a (by simp)
      have hb' : b < 256 := hbytes b (by simp)
      have e1 := b64Val_b64Char (a / 4) (by omega)
      have e2 := b64Val_b64Char (a % 4 * 16 + b / 16) (by omega)
      have e3 := b64Val_b64Char (b % 16 * 4) (by omega)
      rw [b64encode, b64decode]
      simp only [e1, e2, e3, Option.some_bind]
      rw [if_neg (fun hcon => b64Char_ne_61 (b % 16 * 4) (by omega) hcon.1)]
      rw [if_pos (by simp)]
      congr 1
      have h1 : a / 4 * 4 + (a % 4 * 16 + b / 16) / 16 = a := by omega
      have h2 : (a % 4 * 16 + b / 16) % 16 * 16 + b % 16 * 4 / 4 = b := by
        omega
      rw [h1, h2]
    | a :: b :: c :: rest =>
      have ha : a < 256 := hbytes a (by simp)
      have hb' : b < 256 := hbytes b (by simp)
      have hc : c < 256 := hbytes c (by simp)
      have e1 := b64Val_b64Char (a / 4) (by omega)
      have e2 := b64Val_b64Char (a % 4 * 16 + b / 16) (by omega)
      have e3 := b64Val_b64Char (b % 16 * 4 + c / 64) (by omega)
      have e4 := b64Val_b64Char (c % 64) (by omega)
      have hrest : b64decode (b64encode rest) = some rest := by
        refine ih rest ?_ (fun x hx => hbytes x (by simp [hx]))
        simp only [List.length_cons] at hlen
        omega
      rw [b64encode, b64decode]
      simp only [e1, e2, e3, e4, Option.some_bind]
      rw [if_neg
        (fun hcon => b64Char_ne_61 (b % 16 * 4 + c / 64) (by omega) hcon.1)]
      rw [if_neg (fun hcon => b64Char_ne_61 (c % 64) (by omega) hcon.1)]
      rw [hrest, Option.map_some']
      congr 1
      have h1 : a / 4 * 4 + (a % 4 * 16 + b / 16) / 16 = a := by omega
      have h2 : (a % 4 * 16 + b / 16) % 16 * 16 + (b % 16 * 4 + c / 64) / 4
          = b := by omega
      have h3 : (b % 16 * 4 + c / 64) % 4 * 64 + c % 64 = c := by omega
      rw [h1, h2, h3]

/-- Peeling one 16-byte block off `ecbDecrypt`. -/
theorem ecbDecrypt_block (g : List Nat → List Nat) (xs ys : List Nat)
    (h : xs.length = 16) :
    ecbDecrypt g (xs ++ ys) = g xs ++ ecbDecrypt g ys := by
  match xs, h with
  | x :: xs', h =>
    rw [List.cons_append, ecbDecrypt]
    have htake : (x :: (xs' ++ ys)).take 16 = x :: xs' := by
      rw [← List.cons_append, ← h]
      exact List.take_left _ _
    have hdrop : (x :: (xs' ++ ys)).drop 16 = ys := by
      rw [← List.cons_append, ← h]
      exact List.drop_left _ _
    rw [htake, hdrop]

/-- ECB decryption inverts ECB encryption on inputs whose length is a
multiple of the block size. -/
theorem ecbDecrypt_ecbEncrypt (C : BlockCipher) (key bs : List Nat)
    (h : bs.length % 16 = 0) :
    ecbDecrypt (C.dec key) (ecbEncrypt (C.enc key) bs) = bs := by
  suffices H : ∀ n (l : List Nat), l.length ≤ n → l.length % 16 = 0 →
      ecbDecrypt (C.dec key) (ecbEncrypt (C.enc key) l) = l from
    H bs.length bs le_rfl h
  intro n
  induction n with
  | zero =>
    intro l hlen _
    have : l = [] := List.eq_nil_of_length_eq_zero (by omega)
    subst this
    simp [ecbEncrypt, ecbDecrypt]
  | succ n ih =>
    intro l hlen hmod
    match l, hlen, hmod with
    | [], _, _ => simp [ecbEncrypt, ecbDecrypt]
    | b :: rest, hlen, hmod =>
      have hlong : 16 ≤ (b :: rest).length := by
        have hne : (b :: rest).length ≠ 0 := by simp
        omega
      have htake : ((b :: rest).take 16).length = 16 := by
        simp only [List.length_take]
        omega
      have h1 : ((b :: rest).drop 16).length ≤ n := by
        simp only [List.length_drop, List.length_cons] at *
        omega
      have h2 : ((b :: rest).drop 16).length % 16 = 0 := by
        simp only [List.length_drop]
        omega
      rw [ecbEncrypt,
        ecbDecrypt_block _ _ _ (C.enc_length key _ htake),
        C.dec_enc key _ htake, ih _ h1 h2]
      exact List.take_append_drop 16 (b :: rest)

/-- ECB encryption of a byte string whose length is a multiple of 16
produces bytes. -/
theorem ecbEncrypt_bytes (C : BlockCipher) (key bs : List Nat)
    (h : bs.length % 16 = 0) (hb : ∀ x ∈ bs, x < 256) :
    ∀ x ∈ ecbEncrypt (C.enc key) bs, x < 256 := by
  suffices H : ∀ n (l : List Nat), l.length ≤ n → l.length % 16 = 0 →
      (∀ x ∈ l, x < 256) → ∀ x ∈ ecbEncrypt (C.enc key) l, x < 256 from
    H bs.length bs le_rfl h hb
  intro n
  induction n with
  | zero =>
    intro l hlen _ _
    have : l = [] := List.eq_nil_of_length_eq_zero (by omega)
    subst this
    simp [ecbEncrypt]
  | succ n ih =>
    intro l hlen hmod hbytes
    match l, hlen, hmod, hbytes with
    | [], _, _, _ => simp [ecbEncrypt]
    | b :: rest, hlen, hmod, hbytes =>
      have hlong : 16 ≤ (b :: rest).length := by
        have hne : (b :: rest).length ≠ 0 := by simp
        omega
      have htake : ((b :: rest).take 16).length = 16 := by
        simp only [List.length_take]
        omega
      have h1 : ((b :: rest).drop 16).length ≤ n := by
        simp only [List.length_drop, List.length_cons] at *
        omega
      have h2 : ((b :: rest).drop 16).length % 16 = 0 := by
        simp only [List.length_drop]
        omega
      rw [ecbEncrypt]
      intro x hx
      rcases List.mem_append.1 hx with hx | hx
      · exact C.enc_bytes key _ htake
          (fun y hy => hbytes y (List.take_subset 16 _ hy)) x hx
      · exact ih _ h1 h2
          (fun y hy => hbytes y (List.drop_subset 16 _ hy)) x hx

/-- The decryption-side padding removal described by the specification:
remove the number of trailing bytes given by the value of the last byte. -/
def stripPad (l : List Nat) : List Nat :=
  l.take (l.length - l.getLastD 0)

/-- Removing PKCS#7 padding recovers the original string. -/
theorem stripPad_pkcs7 (payload : List Nat) (p : Nat) (hp : 1 ≤ p) :
    stripPad (payload ++ List.replicate p p) = payload := by
  have hlast : (payload ++ List.replicate p p).getLastD 0 = p := by
    match p, hp with
    | q + 1, _ =>
      rw [List.replicate_succ', ← List.append_assoc, List.getLastD_concat]
  rw [stripPad, hlast, List.length_append, List.length_replicate]
  have hl : payload.length + p - p = payload.length := by omega
  rw [hl]
  exact List.take_left _ _

/-- Counterexample to claim C3: the one-byte payload `[200]` is within the
claimed length range 0..1000, yet `encrypt` fails with an encoding error
(the Python 2 implicit `ascii` step rejects bytes ≥ 128) and produces no
output at all, so no decryption can recover the payload. -/
theorem claim_C3_counterexample :
    xapo_utils.encrypt idCipher [200] (codes "0123456789abcdef") =
      .error .encodingError ∧
    ([200] : List Nat).length ≤ 1000 ∧
    (codes "0123456789abcdef").length = 16 := by
  refine ⟨by decide, by decide, by decide⟩

/-- Claim C3 as amended: for every ASCII payload of length 0..1000 and every
16-byte ASCII key, base64-decoding the output of `encrypt`, decrypting it
with AES-ECB under the same key, and stripping the trailing `p` bytes where
`p` is the value of the last decrypted byte, recovers the original payload
exactly. -/
theorem claim_C3_roundtrip (C : BlockCipher) (payload app_secret : List Nat)
    (hpl : payload.length ≤ 1000) (hpa : ∀ c ∈ payload, c < 128)
    (hsl : app_secret.length = 16) (hsa : ∀ c ∈ app_secret, c < 128) :
    ∃ out, xapo_utils.encrypt C payload app_secret = .ok out ∧
      ∃ ct, b64decode out = some ct ∧
        stripPad (ecbDecrypt (C.dec app_secret) ct) = payload := by
  have hsall : app_secret.all (fun c => c < 128) = true := by
    rw [List.all_eq_true]; intro c hc; simpa using hsa c hc
  have hpad_all : (xapo_utils.pkcs7_padding payload 16).all
      (fun c => c < 128) = true := by
    rw [List.all_eq_true]
    intro c hc
    simp only [xapo_utils.pkcs7_padding, List.mem_append] at hc
    rcases hc with hc | hc
    · simpa using hpa c hc
    · have := List.eq_of_mem_replicate hc
      simp only [decide_eq_true_eq]
      omega
  have hsize : aesKeySizeOk app_secret.length = true := by
    simp [aesKeySizeOk, hsl]
  have henc : xapo_utils.encrypt C payload app_secret =
      .ok (b64encode (ecbEncrypt (C.enc app_secret)
        (xapo_utils.pkcs7_padding payload 16))) := by
    unfold xapo_utils.encrypt asciiEncode
    rw [if_pos hsall]
    simp [hsize, hpad_all]
  have hpadlen : (xapo_utils.pkcs7_padding payload 16).length % 16 = 0 := by
    simp only [xapo_utils.pkcs7_padding, List.length_append,
      List.length_replicate]
    omega
  have hpadbytes : ∀ x ∈ xapo_utils.pkcs7_padding payload 16, x < 256 := by
    intro x hx
    have := (List.all_eq_true.1 hpad_all) x hx
    simp only [decide_eq_true_eq] at this
    omega
  refine ⟨_, henc, ecbEncrypt (C.enc app_secret)
      (xapo_utils.pkcs7_padding payload 16), ?_, ?_⟩
  · exact b64decode_b64encode _
      (ecbEncrypt_bytes C app_secret _ hpadlen hpadbytes)
  · rw [ecbDecrypt_ecbEncrypt C app_secret _ hpadlen]
    have hform : xapo_utils.pkcs7_padding payload 16 =
        payload ++ List.replicate (16 - payload.length % 16)
          (16 - payload.length % 16) := rfl
    rw [hform]
    exact stripPad_pkcs7 payload _ (by omega)

/-- Witness for `claim_C3_roundtrip` at a concrete payload and key. -/
theorem claim_C3_roundtrip_witness :
    ((codes "hello").length ≤ 1000 ∧ (∀ c ∈ codes "hello", c < 128) ∧
      (codes "0123456789abcdef").length = 16 ∧
      (∀ c ∈ codes "0123456789abcdef", c < 128)) ∧
    (∃ out, xapo_utils.encrypt idCipher (codes "hello")
        (codes "0123456789abcdef") = .ok out ∧
      ∃ ct, b64decode out = some ct ∧
        stripPad (ecbDecrypt (idCipher.dec (codes "0123456789abcdef")) ct) =
          codes "hello") :=
  ⟨⟨by decide, by decide, by decide, by decide⟩,
    claim_C3_roundtrip idCipher (codes "hello") _
      (by decide) (by decide) (by decide) (by decide)⟩

/-- Lowercase hex digit, as produced by Python's `'%04x'` formatting. -/
def hexDigitLower (n : Nat) : Nat :=
  if n < 10 then 48 + n else 87 + n

/-- Four lowercase hex digits of a value below 65536. -/
def hex4Lower (n : Nat) : List Nat :=
  [hexDigitLower (n / 4096 % 16), hexDigitLower (n / 256 % 16),
    hexDigitLower (n / 16 % 16), hexDigitLower (n % 16)]

/-- `json.dumps` escaping of one character with the default
`ensure_ascii=True`: `\"` and `\\`, the named control escapes, `\u00xx` for
the remaining control characters, printable ASCII verbatim, `\uxxxx` for
other characters of the basic plane and a surrogate pair for code points
at 65536 and above. -/
def jsonEscapeChar (c : Nat) : List Nat :=
  if c = 34 then [92, 34]
  else if c = 92 then [92, 92]
  else if c = 8 then [92, 98]
  else if c = 9 then [92, 116]
  else if c = 10 then [92, 110]
  else if c = 12 then [92, 102]
  else if c = 13 then [92, 114]
  else if c < 32 then 92 :: 117 :: hex4Lower c
  else if c < 127 then [c]
  else if c < 65536 then 92 :: 117 :: hex4Lower c
  else (92 :: 117 :: hex4Lower (55296 + (c - 65536) / 1024)) ++
    (92 :: 117 :: hex4Lower (56320 + (c - 65536) % 1024))

/-- A JSON string literal: quote, escaped characters, quote. -/
def jsonStringLit (s : List Nat) : List Nat :=
  34 :: (s.map jsonEscapeChar).flatten ++ [34]

/-- Decimal digits of a natural number, as in Python's `repr`. -/
def natDigits (n : Nat) : List Nat :=
  (Nat.toDigits 10 n).map Char.toNat

/-- Serialization of an integer JSON number. -/
def intLit (i : Int) : List Nat :=
  if i < 0 then 45 :: natDigits (-i).toNat else natDigits i.toNat

/-- `json.dumps` rendering of the members of an object with the default
separators: `"key": value` items joined by `", "`. -/
def renderPairs : List (List Nat × List Nat) → List Nat
  | [] => []
  | [(k, v)] => jsonStringLit k ++ ([58, 32] ++ v)
  | (k, v) :: rest =>
    jsonStringLit k ++ ([58, 32] ++ (v ++ ([44, 32] ++ renderPairs rest)))

/-- `json.dumps` rendering of an object: `{members}`. -/
def renderObj (ps : List (List Nat × List Nat)) : List Nat :=
  [123] ++ (renderPairs ps ++ [125])

namespace xapo_tools

/-- `xapo_tools.MicroPaymentConfig`: the nine attributes set by `__init__`,
in assignment order.  The numeric `amount_BIT` is modelled as an integer
(its default is the integer `0`) and `timestamp` as a natural number of
milliseconds. -/
structure MicroPaymentConfig where
  sender_user_id : List Nat
  sender_user_email : List Nat
  sender_user_cellphone : List Nat
  receiver_user_id : List Nat
  receiver_user_email : List Nat
  pay_object_id : List Nat
  amount_BIT : Int
  timestamp : Nat
  pay_type : List Nat

/-- A call of the constructor `MicroPaymentConfig(...)`.  The default value
of the `timestamp` parameter, `int(round(time.time() * 1000))`, is evaluated
exactly once, when `def __init__` is executed at module import;
`importMillis` stands for that frozen value.  `callMillis` is the wall clock
at the moment of the constructor call; the code never reads it, and it is a
parameter of the model only so that dependence of the result on the
construction time can be stated.  An omitted `timestamp` argument is
`none`. -/
def mkMicroPaymentConfig (importMillis : Nat) (callMillis : Nat)
    (sender_user_id sender_user_email sender_user_cellphone
      receiver_user_id receiver_user_email pay_object_id : List Nat)
    (amount_BIT : Int) (timestamp : Option Nat) (pay_type : List Nat) :
    MicroPaymentConfig :=
  { sender_user_id := sender_user_id
    sender_user_email := sender_user_email
    sender_user_cellphone := sender_user_cellphone
    receiver_user_id := receiver_user_id
    receiver_user_email := receiver_user_email
    pay_object_id := pay_object_id
    amount_BIT := amount_BIT
    timestamp := timestamp.getD importMillis
    pay_type := pay_type }

/-- The members of `config.__dict__` in attribute-assignment order, with
their `json.dumps` serializations. -/
def configPairs (c : MicroPaymentConfig) : List (List Nat × List Nat) :=
  [(codes "sender_user_id", jsonStringLit c.sender_user_id),
   (codes "sender_user_email", jsonStringLit c.sender_user_email),
   (codes "sender_user_cellphone", jsonStringLit c.sender_user_cellphone),
   (codes "receiver_user_id", jsonStringLit c.receiver_user_id),
   (codes "receiver_user_email", jsonStringLit c.receiver_user_email),
   (codes "pay_object_id", jsonStringLit c.pay_object_id),
   (codes "amount_BIT", intLit c.amount_BIT),
   (codes "timestamp", natDigits c.timestamp),
   (codes "pay_type", jsonStringLit c.pay_type)]

/-- `json.dumps(config.__dict__)` inside `MicroPayment.__build_url`. -/
def jsonConfig (c : MicroPaymentConfig) : List Nat :=
  renderObj (configPairs c)

/-- `json.dumps({"button_text": config.pay_type})`, the plaintext
`customization` query value of `MicroPayment.__build_url`. -/
def customization (pay_type : List Nat) : List Nat :=
  renderObj [(codes "button_text", jsonStringLit pay_type)]

end xapo_tools

namespace micro_payment

/-- `micro_payment.MicroPaymentConfig`: the eight attributes set by
`__init__`, in assignment order; this variant has no `pay_type`
attribute. -/
structure MicroPaymentConfig where
  sender_user_id : List Nat
  sender_user_email : List Nat
  sender_user_cellphone : List Nat
  receiver_user_id : List Nat
  receiver_user_email : List Nat
  pay_object_id : List Nat
  amount_BIT : Int
  timestamp : Nat

/-- The members of `config.__dict__` in attribute-assignment order for the
`XapoMicroPaymentSDK` variant. -/
def configPairs (c : MicroPaymentConfig) : List (List Nat × List Nat) :=
  [(codes "sender_user_id", jsonStringLit c.sender_user_id),
   (codes "sender_user_email", jsonStringLit c.sender_user_email),
   (codes "sender_user_cellphone", jsonStringLit c.sender_user_cellphone),
   (codes "receiver_user_id", jsonStringLit c.receiver_user_id),
   (codes "receiver_user_email", jsonStringLit c.receiver_user_email),
   (codes "pay_object_id", jsonStringLit c.pay_object_id),
   (codes "amount_BIT", intLit c.amount_BIT),
   (codes "timestamp", natDigits c.timestamp)]

/-- `json.dumps(config.__dict__)` inside `XapoMicroPaymentSDK.__build_url`. -/
def jsonConfig (c : MicroPaymentConfig) : List Nat :=
  renderObj (configPairs c)

/-- `json.dumps({"button_text": pay_type})` for the `pay_type` argument of
`XapoMicroPaymentSDK.__build_url(config, pay_type)`. -/
def customization (pay_type : List Nat) : List Nat :=
  renderObj [(codes "button_text", jsonStringLit pay_type)]

end micro_payment

/-- Claim C4 is a code bug: the default timestamp expression is evaluated
once at module import, so two constructions without an explicit timestamp at
different wall-clock times (here 2000 and 3000, with the module imported at
wall-clock 1000) both receive the frozen import-time value 1000 instead of
their construction-time values. -/
theorem claim_C4_default_timestamp_frozen :
    (xapo_tools.mkMicroPaymentConfig 1000 2000
      [] [] [] [] [] [] 0 none []).timestamp = 1000 ∧
    (xapo_tools.mkMicroPaymentConfig 1000 3000
      [] [] [] [] [] [] 0 none []).timestamp = 1000 ∧
    (xapo_tools.mkMicroPaymentConfig 1000 2000
        [] [] [] [] [] [] 0 none []).timestamp =
      (xapo_tools.mkMicroPaymentConfig 1000 3000
        [] [] [] [] [] [] 0 none []).timestamp ∧
    (2000 : Nat) ≠ 3000 :=
  ⟨rfl, rfl, rfl, by decide⟩

set_option maxRecDepth 100000 in
/-- Claim C8: when every optional field is left at its default, the
serialized JSON payload contains all nine schema keys, the optional string
fields as empty strings and the numeric field as its default `0`; no key of
the configuration record is omitted.  (`importMillis` is the frozen default
timestamp, `callMillis` the construction time.) -/
theorem claim_C8_no_key_omitted (importMillis callMillis : Nat) :
    ((xapo_tools.configPairs (xapo_tools.mkMicroPaymentConfig
        importMillis callMillis [] [] [] [] [] [] 0 none [])).map
      Prod.fst =
      [codes "sender_user_id", codes "sender_user_email",
       codes "sender_user_cellphone", codes "receiver_user_id",
       codes "receiver_user_email", codes "pay_object_id",
       codes "amount_BIT", codes "timestamp", codes "pay_type"]) ∧
    xapo_tools.jsonConfig (xapo_tools.mkMicroPaymentConfig
        importMillis callMillis [] [] [] [] [] [] 0 none []) =
      codes "\x7b\"sender_user_id\": \"\", \"sender_user_email\": \"\", \"sender_user_cellphone\": \"\", \"receiver_user_id\": \"\", \"receiver_user_email\": \"\", \"pay_object_id\": \"\", \"amount_BIT\": 0, \"timestamp\": " ++
        ((natDigits importMillis ++ codes ", \"pay_type\": \"\"") ++
          codes "\x7d") :=
  ⟨rfl, by with_unfolding_all rfl⟩

/-- Claim C10: the two builder variants place `pay_type` differently.  In
`MicroPayment` the serialized `__dict__` placed inside the encrypted
`button_request` has a `"pay_type"` member whose serialized value is exactly
the serialization of `config.pay_type`, and the plaintext `customization`
parameter carries the same `config.pay_type` as `button_text` — the two
copies are equal.  In `XapoMicroPaymentSDK` the serialized `__dict__` has
exactly the eight keys of its configuration record, `"pay_type"` not among
them, and `pay_type` travels only in the plaintext `customization`. -/
theorem claim_C10_pay_type_placement :
    (∀ c : xapo_tools.MicroPaymentConfig,
      (codes "pay_type", jsonStringLit c.pay_type) ∈
        xapo_tools.configPairs c ∧
      xapo_tools.customization c.pay_type =
        codes "\x7b\"button_text\": " ++
          (jsonStringLit c.pay_type ++ codes "\x7d")) ∧
    (∀ (c : micro_payment.MicroPaymentConfig) (pay_type : List Nat),
      (micro_payment.configPairs c).map Prod.fst =
        [codes "sender_user_id", codes "sender_user_email",
         codes "sender_user_cellphone", codes "receiver_user_id",
         codes "receiver_user_email", codes "pay_object_id",
         codes "amount_BIT", codes "timestamp"] ∧
      codes "pay_type" ∉ (micro_payment.configPairs c).map Prod.fst ∧
      micro_payment.customization pay_type =
        codes "\x7b\"button_text\": " ++
          (jsonStringLit pay_type ++ codes "\x7d")) := by
  refine ⟨fun c => ⟨?_, rfl⟩, fun c pay_type => ⟨rfl, ?_, rfl⟩⟩
  · simp [xapo_tools.configPairs]
  · have h : (micro_payment.configPairs c).map Prod.fst =
        [codes "sender_user_id", codes "sender_user_email",
         codes "sender_user_cellphone", codes "receiver_user_id",
         codes "receiver_user_email", codes "pay_object_id",
         codes "amount_BIT", codes "timestamp"] := rfl
    rw [h]
    decide

/-- Characters never quoted by `urllib.parse.quote`: ASCII letters, digits,
and `_`, `.`, `-`, `~`. -/
def urlSafe (b : Nat) : Bool :=
  (48 ≤ b && b ≤ 57) || (65 ≤ b && b ≤ 90) || (97 ≤ b && b ≤ 122) ||
    b = 95 || b = 46 || b = 45 || b = 126

/-- Uppercase hex digit, as in the `%XX` escapes of `urllib.parse.quote`. -/
def hexDigitUpper (n : Nat) : Nat :=
  if n < 10 then 48 + n else 55 + n

/-- `quote_plus` with `safe=''` on a single byte: safe bytes verbatim, the
space as `+`, every other byte percent-escaped in uppercase hex. -/
def quoteByte (b : Nat) : List Nat :=
  if urlSafe b then [b]
  else if b = 32 then [43]
  else [37, hexDigitUpper (b / 16), hexDigitUpper (b % 16)]

/-- `urllib.parse.quote_plus` applied to a byte string (as `urlencode` does
for `bytes` values such as the codec output). -/
def quotePlusBytes (bs : List Nat) : List Nat :=
  (bs.map quoteByte).flatten

/-- `urllib.parse.quote_plus` applied to a text string: the string is UTF-8
encoded and each byte is quoted. -/
def quotePlus (s : List Nat) : List Nat :=
  quotePlusBytes (utf8Encode s)

namespace xapo_tools

/-- `urlencode(query)` for the mapping
`{"app_id": .., "button_request": .., "customization": ..}` built by
`MicroPayment.__build_url`, in dictionary insertion order: each key and
value is passed through `quote_plus` and the three `key=value` items are
joined with `&`.  The `button_request` value, the byte string returned by
the codec, is quoted byte by byte. -/
def queryString (app_id button_request cust : List Nat) : List Nat :=
  quotePlus (codes "app_id") ++ [61] ++ quotePlus app_id ++ [38] ++
    quotePlus (codes "button_request") ++ [61] ++
    quotePlusBytes button_request ++ [38] ++
    quotePlus (codes "customization") ++ [61] ++ quotePlus cust

/-- `MicroPayment.__build_url(config)`:
`json_config = json.dumps(config.__dict__)`,
`encrypted_config = xapo_utils.encrypt(json_config, self.app_secret)`,
the three-parameter query mapping is url-encoded, and the result is
`self.service_url + "?" + query_str`. -/
def buildUrl (C : BlockCipher) (service_url app_id app_secret : List Nat)
    (config : MicroPaymentConfig) : Except EncError (List Nat) :=
  match xapo_utils.encrypt C (jsonConfig config) app_secret with
  | .error e => .error e
  | .ok encrypted_config =>
    .ok (service_url ++ [63] ++
      queryString app_id encrypted_config (customization config.pay_type))

end xapo_tools

/-- `c = 32` or `c = 9`: the characters `re` treats as `[ \t]` in
`textwrap.dedent`. -/
def isSpTab (c : Nat) : Bool :=
  c = 32 || c = 9

/-- Prepend a character to the first part of a split. -/
def consHead (b : Nat) : List (List Nat) → List (List Nat)
  | [] => [[b]]
  | l :: ls => (b :: l) :: ls

/-- `text.split('\n')` on code points. -/
def splitOnChar (c : Nat) : List Nat → List (List Nat)
  | [] => [[]]
  | b :: r =>
    if b = c then [] :: splitOnChar c r else consHead b (splitOnChar c r)

/-- `'\n'.join`, the inverse of `splitOnChar 10`. -/
def joinLines : List (List Nat) → List Nat
  | [] => []
  | [l] => l
  | l :: ls => l ++ 10 :: joinLines ls

/-- A line consisting solely of whitespace (`^[ \t]+$`). -/
def wsOnly (l : List Nat) : Bool :=
  !l.isEmpty && l.all isSpTab

/-- Longest common first part of two lists, as computed by `textwrap.dedent`
when intersecting indents. -/
def commonPre : List Nat → List Nat → List Nat
  | a :: as', b :: bs' => if a = b then a :: commonPre as' bs' else []
  | _, _ => []

/-- The margin of `textwrap.dedent`: the longest common leading whitespace
of all lines that contain a non-whitespace character (whitespace-only
lines have already been blanked). -/
def marginOf (ls : List (List Nat)) : Option (List Nat) :=
  ls.foldl
    (fun m l =>
      if l.isEmpty then m
      else
        match m with
        | none => some (l.takeWhile isSpTab)
        | some p => some (commonPre p (l.takeWhile isSpTab)))
    none

/-- `re.sub(r'(?m)^' + margin, '', text)` acting on one line: remove the
margin when the line starts with it. -/
def stripMargin (m l : List Nat) : List Nat :=
  if m.isPrefixOf l then l.drop m.length else l

/-- `textwrap.dedent(text)`: blank the whitespace-only lines, compute the
common margin of the remaining lines, and remove it from the start of every
line. -/
def dedent (text : List Nat) : List Nat :=
  let ls := (splitOnChar 10 text).map (fun l => if wsOnly l then [] else l)
  match marginOf ls with
  | none => joinLines ls
  | some m => joinLines (ls.map (stripMargin m))

namespace xapo_tools

/-- The literal iframe template of `MicroPayment.build_iframe_widget` with
the URL substituted for `{url}` (before `textwrap.dedent`). -/
def iframeSnippet (url : List Nat) : List Nat :=
  codes "\n                <iframe id=\"tipButtonFrame\" scrolling=\"no\" frameborder=\"0\"\n                    style=\"border:none; overflow:hidden; height:22px;\"\n                    allowTransparency=\"true\" src=\"" ++
    url ++
    codes "\">\n                </iframe>\n              "

/-- The literal div template of `MicroPayment.build_div_widget` with the URL
substituted for `{url}` (before `textwrap.dedent`; the doubled braces of the
source denote literal braces). -/
def divSnippet (url : List Nat) : List Nat :=
  codes "\n                <div id=\"tipButtonDiv\" class=\"tipButtonDiv\"></div>\n                <div id=\"tipButtonPopup\" class=\"tipButtonPopup\"></div>\n                <script>\n                    $(document).ready(function() \x7b\n                        $(\"#tipButtonDiv\").load(\"" ++
    url ++
    codes "\");\n                    \x7d);\n                </script>\n              "

/-- `MicroPayment.build_iframe_widget(config)`: build the URL, substitute it
into the iframe template and return `textwrap.dedent` of the snippet. -/
def build_iframe_widget (C : BlockCipher)
    (service_url app_id app_secret : List Nat)
    (config : MicroPaymentConfig) : Except EncError (List Nat) :=
  match buildUrl C service_url app_id app_secret config with
  | .error e => .error e
  | .ok widget_url => .ok (dedent (iframeSnippet widget_url))

/-- `MicroPayment.build_div_widget(config)`: build the URL, substitute it
into the div template and return `textwrap.dedent` of the snippet. -/
def build_div_widget (C : BlockCipher)
    (service_url app_id app_secret : List Nat)
    (config : MicroPaymentConfig) : Except EncError (List Nat) :=
  match buildUrl C service_url app_id app_secret config with
  | .error e => .error e
  | .ok widget_url => .ok (dedent (divSnippet widget_url))

end xapo_tools

/-- Claim C7: the pipeline is deterministic — two calls of `encrypt` with
identical inputs yield byte-identical outputs (no randomness and no IV
enters the computation), and building a widget twice from the same config
object yields byte-identical HTML.  The embedded pipeline is a pure
function of its arguments, so determinism is congruence in them. -/
theorem claim_C7_deterministic (C : BlockCipher)
    (p1 p2 s1 s2 su1 su2 ai1 ai2 : List Nat)
    (c1 c2 : xapo_tools.MicroPaymentConfig)
    (hp : p1 = p2) (hs : s1 = s2) (hsu : su1 = su2) (hai : ai1 = ai2)
    (hc : c1 = c2) :
    xapo_utils.encrypt C p1 s1 = xapo_utils.encrypt C p2 s2 ∧
    xapo_tools.build_div_widget C su1 ai1 s1 c1 =
      xapo_tools.build_div_widget C su2 ai2 s2 c2 ∧
    xapo_tools.build_iframe_widget C su1 ai1 s1 c1 =
      xapo_tools.build_iframe_widget C su2 ai2 s2 c2 := by
  subst hp hs hsu hai hc
  exact ⟨rfl, rfl, rfl⟩

/-- Witness for `claim_C7_deterministic` at concrete inputs. -/
theorem claim_C7_deterministic_witness :
    xapo_utils.encrypt idCipher (codes "p") (codes "0123456789abcdef") =
      xapo_utils.encrypt idCipher (codes "p") (codes "0123456789abcdef") ∧
    xapo_tools.build_div_widget idCipher (codes "http://u") (codes "a")
        (codes "0123456789abcdef")
        (xapo_tools.mkMicroPaymentConfig 0 0 [] [] [] [] [] [] 0 none []) =
      xapo_tools.build_div_widget idCipher (codes "http://u") (codes "a")
        (codes "0123456789abcdef")
        (xapo_tools.mkMicroPaymentConfig 0 0 [] [] [] [] [] [] 0 none []) ∧
    xapo_tools.build_iframe_widget idCipher (codes "http://u") (codes "a")
        (codes "0123456789abcdef")
        (xapo_tools.mkMicroPaymentConfig 0 0 [] [] [] [] [] [] 0 none []) =
      xapo_tools.build_iframe_widget idCipher (codes "http://u") (codes "a")
        (codes "0123456789abcdef")
        (xapo_tools.mkMicroPaymentConfig 0 0 [] [] [] [] [] [] 0 none []) :=
  claim_C7_deterministic idCipher _ _ _ _ _ _ _ _ _ _
    rfl rfl rfl rfl rfl

theorem splitOnChar_ne_nil (c : Nat) (l : List Nat) : splitOnChar c l ≠ [] := by
  induction l with
  | nil => simp [splitOnChar]
  | cons b r ih =>
    simp only [splitOnChar]
    split
    · simp
    · cases h : splitOnChar c r with
      | nil => exact absurd h ih
      | cons x xs => simp [consHead]

theorem splitOnChar_not_mem {c : Nat} {l : List Nat} (h : c ∉ l) :
    splitOnChar c l = [l] := by
  induction l with
  | nil => rfl
  | cons b r ih =>
    have hb : ¬b = c := fun hc => h (by simp [hc])
    have hr : c ∉ r := fun hc => h (by simp [hc])
    simp only [splitOnChar, if_neg hb, ih hr, consHead]

theorem splitOnChar_sep (c : Nat) (xs ys : List Nat) (h : c ∉ xs) :
    splitOnChar c (xs ++ c :: ys) = xs :: splitOnChar c ys := by
  induction xs with
  | nil => simp [splitOnChar]
  | cons b xs' ih =>
    have hb : ¬b = c := fun hc => h (by simp [hc])
    have hxs : c ∉ xs' := fun hc => h (by simp [hc])
    rw [List.cons_append]
    rw [show splitOnChar c (b :: (xs' ++ c :: ys)) =
        consHead b (splitOnChar c (xs' ++ c :: ys)) from by
      simp [splitOnChar, hb]]
    rw [ih hxs]
    rfl

theorem takeWhile_append_stop (p : Nat → Bool) (xs ys : List Nat) (b : Nat)
    (hb : p b = false) :
    ((xs ++ b :: ys).takeWhile p) = xs.takeWhile p := by
  induction xs with
  | nil => simp [List.takeWhile, hb]
  | cons a xs' ih =>
    by_cases hpa : p a <;> simp [List.takeWhile_cons, hpa, ih]

theorem stripMargin_append (m r : List Nat) : stripMargin m (m ++ r) = r := by
  rw [stripMargin,
    if_pos ((List.isPrefixOf_iff_prefix).2 (List.prefix_append m r))]
  exact List.drop_left m r

theorem isEmpty_append_left (l1 l2 : List Nat) (h : l1.isEmpty = false) :
    (l1 ++ l2).isEmpty = false := by
  cases l1 <;> simp_all

set_option maxRecDepth 100000 in
/-- `textwrap.dedent` of the iframe snippet, for a URL without newline
characters: the common 16-space margin is removed from every line, the
whitespace-only last line is blanked, and the URL is untouched. -/
theorem dedent_iframeSnippet (url : List Nat) (h10 : 10 ∉ url) :
    dedent (xapo_tools.iframeSnippet url) =
      codes "\n<iframe id=\"tipButtonFrame\" scrolling=\"no\" frameborder=\"0\"\n    style=\"border:none; overflow:hidden; height:22px;\"\n    allowTransparency=\"true\" src=\"" ++
        ((url ++ codes "\">") ++ codes "\n</iframe>\n") := by
  have hsnippet : xapo_tools.iframeSnippet url =
      10 :: (codes "                <iframe id=\"tipButtonFrame\" scrolling=\"no\" frameborder=\"0\"" ++
        10 :: (codes "                    style=\"border:none; overflow:hidden; height:22px;\"" ++
          10 :: ((codes "                    allowTransparency=\"true\" src=\"" ++
              (url ++ codes "\">")) ++
            10 :: (codes "                </iframe>" ++
              10 :: codes "              ")))) := by
    rw [show (codes "                    allowTransparency=\"true\" src=\"" ++
        (url ++ codes "\">")) ++
          10 :: (codes "                </iframe>" ++ 10 :: codes "              ") =
        codes "                    allowTransparency=\"true\" src=\"" ++
          (url ++ (codes "\">" ++
            10 :: (codes "                </iframe>" ++
              10 :: codes "              "))) from by
      simp [List.append_assoc]]
    with_unfolding_all rfl
  have hsplit : splitOnChar 10 (xapo_tools.iframeSnippet url) =
      [[],
       codes "                <iframe id=\"tipButtonFrame\" scrolling=\"no\" frameborder=\"0\"",
       codes "                    style=\"border:none; overflow:hidden; height:22px;\"",
       codes "                    allowTransparency=\"true\" src=\"" ++
         (url ++ codes "\">"),
       codes "                </iframe>",
       codes "              "] := by
    rw [hsnippet]
    rw [show (10 : Nat) ::
        (codes "                <iframe id=\"tipButtonFrame\" scrolling=\"no\" frameborder=\"0\"" ++
          10 :: (codes "                    style=\"border:none; overflow:hidden; height:22px;\"" ++
            10 :: ((codes "                    allowTransparency=\"true\" src=\"" ++
                (url ++ codes "\">")) ++
              10 :: (codes "                </iframe>" ++
                10 :: codes "              ")))) =
        ([] : List Nat) ++ 10 ::
        (codes "                <iframe id=\"tipButtonFrame\" scrolling=\"no\" frameborder=\"0\"" ++
          10 :: (codes "                    style=\"border:none; overflow:hidden; height:22px;\"" ++
            10 :: ((codes "                    allowTransparency=\"true\" src=\"" ++
                (url ++ codes "\">")) ++
              10 :: (codes "                </iframe>" ++
                10 :: codes "              ")))) from rfl]
    rw [splitOnChar_sep 10 [] _ (by simp)]
    rw [splitOnChar_sep 10 _ _ (by decide)]
    rw [splitOnChar_sep 10 _ _ (by decide)]
    rw [splitOnChar_sep 10 _ _ (by
      intro hc
      rcases List.mem_append.1 hc with hc | hc
      · exact absurd hc (by decide)
      · rcases List.mem_append.1 hc with hc | hc
        · exact h10 hc
        · exact absurd hc (by decide))]
    rw [splitOnChar_sep 10 _ _ (by decide)]
    rw [splitOnChar_not_mem (by decide)]
  simp only [dedent]
  rw [hsplit]
  with_unfolding_all rfl

set_option maxRecDepth 100000 in
/-- `textwrap.dedent` of the div snippet, for a URL without newline
characters: the common 16-space margin is removed from every line, the
whitespace-only last line is blanked, and the URL is untouched. -/
theorem dedent_divSnippet (url : List Nat) (h10 : 10 ∉ url) :
    dedent (xapo_tools.divSnippet url) =
      codes "\n<div id=\"tipButtonDiv\" class=\"tipButtonDiv\"></div>\n<div id=\"tipButtonPopup\" class=\"tipButtonPopup\"></div>\n<script>\n    $(document).ready(function() \x7b\n        $(\"#tipButtonDiv\").load(\"" ++
        ((url ++ codes "\");") ++
          codes "\n    \x7d);\n</script>\n") := by
  have hsnippet : xapo_tools.divSnippet url =
      10 :: (codes "                <div id=\"tipButtonDiv\" class=\"tipButtonDiv\"></div>" ++
        10 :: (codes "                <div id=\"tipButtonPopup\" class=\"tipButtonPopup\"></div>" ++
          10 :: (codes "                <script>" ++
            10 :: (codes "                    $(document).ready(function() \x7b" ++
              10 :: ((codes "                        $(\"#tipButtonDiv\").load(\"" ++
                  (url ++ codes "\");")) ++
                10 :: (codes "                    \x7d);" ++
                  10 :: (codes "                </script>" ++
                    10 :: codes "              "))))))) := by
    rw [show (codes "                        $(\"#tipButtonDiv\").load(\"" ++
        (url ++ codes "\");")) ++
          10 :: (codes "                    \x7d);" ++
            10 :: (codes "                </script>" ++
              10 :: codes "              ")) =
        codes "                        $(\"#tipButtonDiv\").load(\"" ++
          (url ++ (codes "\");" ++
            10 :: (codes "                    \x7d);" ++
              10 :: (codes "                </script>" ++
                10 :: codes "              ")))) from by
      simp [List.append_assoc]]
    with_unfolding_all rfl
  have hsplit : splitOnChar 10 (xapo_tools.divSnippet url) =
      [[],
       codes "                <div id=\"tipButtonDiv\" class=\"tipButtonDiv\"></div>",
       codes "                <div id=\"tipButtonPopup\" class=\"tipButtonPopup\"></div>",
       codes "                <script>",
       codes "                    $(document).ready(function() \x7b",
       codes "                        $(\"#tipButtonDiv\").load(\"" ++
         (url ++ codes "\");"),
       codes "                    \x7d);",
       codes "                </script>",
       codes "              "] := by
    rw [hsnippet]
    rw [show (10 : Nat) ::
        (codes "                <div id=\"tipButtonDiv\" class=\"tipButtonDiv\"></div>" ++
          10 :: (codes "                <div id=\"tipButtonPopup\" class=\"tipButtonPopup\"></div>" ++
            10 :: (codes "                <script>" ++
              10 :: (codes "                    $(document).ready(function() \x7b" ++
                10 :: ((codes "                        $(\"#tipButtonDiv\").load(\"" ++
                    (url ++ codes "\");")) ++
                  10 :: (codes "                    \x7d);" ++
                    10 :: (codes "                </script>" ++
                      10 :: codes "              "))))))) =
        ([] : List Nat) ++ 10 ::
        (codes "                <div id=\"tipButtonDiv\" class=\"tipButtonDiv\"></div>" ++
          10 :: (codes "                <div id=\"tipButtonPopup\" class=\"tipButtonPopup\"></div>" ++
            10 :: (codes "                <script>" ++
              10 :: (codes "                    $(document).ready(function() \x7b" ++
                10 :: ((codes "                        $(\"#tipButtonDiv\").load(\"" ++
                    (url ++ codes "\");")) ++
                  10 :: (codes "                    \x7d);" ++
                    10 :: (codes "                </script>" ++
                      10 :: codes "              "))))))) from rfl]
    rw [splitOnChar_sep 10 [] _ (by simp)]
    rw [splitOnChar_sep 10 _ _ (by decide)]
    rw [splitOnChar_sep 10 _ _ (by decide)]
    rw [splitOnChar_sep 10 _ _ (by decide)]
    rw [splitOnChar_sep 10 _ _ (by decide)]
    rw [splitOnChar_sep 10 _ _ (by
      intro hc
      rcases List.mem_append.1 hc with hc | hc
      · exact absurd hc (by decide)
      · rcases List.mem_append.1 hc with hc | hc
        · exact h10 hc
        · exact absurd hc (by decide))]
    rw [splitOnChar_sep 10 _ _ (by decide)]
    rw [splitOnChar_sep 10 _ _ (by decide)]
    rw [splitOnChar_not_mem (by decide)]
  simp only [dedent]
  rw [hsplit]
  with_unfolding_all rfl

/-- Number of positions at which `pat` occurs as a contiguous substring of
`txt`. -/
def countOcc (pat txt : List Nat) : Nat :=
  ((List.range (txt.length + 1)).filter
    (fun i => decide ((txt.drop i).take pat.length = pat))).length

theorem mem_of_getElem?_eq (l : List Nat) (n a : Nat) (h : l[n]? = some a) :
    a ∈ l := by
  obtain ⟨hlt, he⟩ := List.getElem?_eq_some.1 h
  exact he ▸ List.getElem_mem _

/-- The character `?` (63) appears at a first position. -/
theorem first_q_pos {l : List Nat} (h : (63 : Nat) ∈ l) :
    ∃ j : Nat, l[j]? = some 63 ∧ ∀ k : Nat, k < j → l[k]? ≠ some 63 := by
  induction l with
  | nil => cases h
  | cons b t ih =>
    by_cases hb : b = 63
    · exact ⟨0, by simp [hb], fun k hk => absurd hk (Nat.not_lt_zero k)⟩
    · have ht : (63 : Nat) ∈ t := by
        rcases List.mem_cons.1 h with hh | hh
        · exact absurd hh.symm hb
        · exact hh
      obtain ⟨j, hj, hmin⟩ := ih ht
      have hj1 : (b :: t)[j + 1]? = some 63 := by simpa using hj
      have hmin1 : ∀ k : Nat, k < j + 1 → (b :: t)[k]? ≠ some 63 := by
        intro k hk
        cases k with
        | zero => simpa using fun hc => hb hc
        | succ k' =>
          have hk' : k' < j := by omega
          simpa using hmin k' hk'
      exact ⟨j + 1, hj1, hmin1⟩

/-- The character `?` (63) appears at a last position. -/
theorem last_q_pos {l : List Nat} (h : (63 : Nat) ∈ l) :
    ∃ j : Nat, l[j]? = some 63 ∧ ∀ k : Nat, j < k → l[k]? ≠ some 63 := by
  induction l with
  | nil => cases h
  | cons b t ih =>
    by_cases ht : (63 : Nat) ∈ t
    · obtain ⟨j, hj, hmax⟩ := ih ht
      have hj1 : (b :: t)[j + 1]? = some 63 := by simpa using hj
      have hmax1 : ∀ k : Nat, j + 1 < k → (b :: t)[k]? ≠ some 63 := by
        intro k hk
        cases k with
        | zero => omega
        | succ k' =>
          have hk' : j < k' := by omega
          simpa using hmax k' hk'
      exact ⟨j + 1, hj1, hmax1⟩
    · have hb : b = 63 := by
        rcases List.mem_cons.1 h with hh | hh
        · exact hh.symm
        · exact absurd hh ht
      have hj0 : (b :: t)[0]? = some 63 := by simp [hb]
      have hmax0 : ∀ k : Nat, 0 < k → (b :: t)[k]? ≠ some 63 := by
        intro k hk
        cases k with
        | zero => omega
        | succ k' =>
          intro hc
          simp only [List.getElem?_cons_succ] at hc
          exact ht (mem_of_getElem?_eq t k' 63 hc)
      exact ⟨0, hj0, hmax0⟩

/-- Characterization of the occurrences of `U` in `P ++ U ++ S` when `U`
contains the character `?` (63) and neither `P` nor `S` does: the only
occurrence is at position `P.length`. -/
theorem matchAt_iff (P U S : List Nat) (hq : (63 : Nat) ∈ U)
    (hP : (63 : Nat) ∉ P) (hS : (63 : Nat) ∉ S) (i : Nat) :
    ((P ++ U ++ S).drop i).take U.length = U ↔ i = P.length := by
  constructor
  · intro hmatch
    have hUpos : 0 < U.length :=
      List.length_pos.2 (by rintro rfl; cases hq)
    have hiL : i + U.length ≤ (P ++ U ++ S).length := by
      have hc := congrArg List.length hmatch
      simp only [List.length_take, List.length_drop] at hc
      rw [Nat.min_def] at hc
      split at hc <;> omega
    have helem : ∀ j, j < U.length → (P ++ U ++ S)[i + j]? = U[j]? := by
      intro j hj
      have h1 : U[j]? = (((P ++ U ++ S).drop i).take U.length)[j]? := by
        rw [hmatch]
      rw [List.getElem?_take, if_pos hj, List.getElem?_drop] at h1
      exact h1.symm
    have hPU : (P ++ U).length = P.length + U.length := List.length_append P U
    by_contra hne
    rcases Nat.lt_or_ge i P.length with hlt | hge
    · obtain ⟨j, hj, hmin⟩ := first_q_pos hq
      have hjL : j < U.length := (List.getElem?_eq_some.1 hj).1
      have hHj : (P ++ U ++ S)[i + j]? = some 63 := (helem j hjL).trans hj
      rw [List.getElem?_append, if_pos (by omega)] at hHj
      rcases Nat.lt_or_ge (i + j) P.length with hcase | hcase
      · rw [List.getElem?_append, if_pos hcase] at hHj
        exact hP (mem_of_getElem?_eq P (i + j) 63 hHj)
      · rw [List.getElem?_append, if_neg (by omega)] at hHj
        exact hmin (i + j - P.length) (by omega) hHj
    · have hgt : P.length < i := by omega
      obtain ⟨j, hj, hmax⟩ := last_q_pos hq
      have hjL : j < U.length := (List.getElem?_eq_some.1 hj).1
      have hHj : (P ++ U ++ S)[i + j]? = some 63 := (helem j hjL).trans hj
      rcases Nat.lt_or_ge (i + j) (P ++ U).length with hcase | hcase
      · rw [List.getElem?_append, if_pos hcase] at hHj
        rw [List.getElem?_append, if_neg (by omega)] at hHj
        exact hmax (i + j - P.length) (by omega) hHj
      · rw [List.getElem?_append, if_neg (by omega)] at hHj
        exact hS (mem_of_getElem?_eq S _ 63 hHj)
  · intro hi
    subst hi
    rw [List.append_assoc, List.drop_left, List.take_left]

/-- There is exactly one occurrence of `U` in `P ++ U ++ S` when `U`
contains `?` and neither `P` nor `S` does. -/
theorem countOcc_sandwich (P U S : List Nat) (hq : (63 : Nat) ∈ U)
    (hP : (63 : Nat) ∉ P) (hS : (63 : Nat) ∉ S) :
    countOcc U (P ++ U ++ S) = 1 := by
  unfold countOcc
  rw [List.filter_congr (fun i _ => show
      decide (((P ++ U ++ S).drop i).take U.length = U) = (i == P.length)
      from by
    rcases Classical.em (i = P.length) with hi | hi
    · subst hi
      rw [decide_eq_true ((matchAt_iff P U S hq hP hS P.length).2 rfl)]
      simp
    · have hneq : ¬((P ++ U ++ S).drop i).take U.length = U :=
        fun hc => hi ((matchAt_iff P U S hq hP hS i).1 hc)
      rw [decide_eq_false hneq]
      simp [beq_iff_eq, hi])]
  rw [← List.countP_eq_length_filter]
  have hcount : (List.range ((P ++ U ++ S).length + 1)).countP
      (fun i => i == P.length) =
      (List.range ((P ++ U ++ S).length + 1)).count P.length := rfl
  rw [hcount]
  refine List.count_eq_one_of_mem (List.nodup_range _) ?_
  rw [List.mem_range]
  have hlen : (P ++ U ++ S).length = P.length + (U.length + S.length) := by
    simp [List.length_append]
  omega

/-- A Unicode scalar value: in range and not a surrogate. -/
def validScalar (c : Nat) : Bool :=
  c < 1114112 && (c < 55296 || 57344 ≤ c)

/-- A UTF-8 continuation byte. -/
def contByte (b : Nat) : Bool :=
  128 ≤ b && b < 192


/-- Strict UTF-8 decoding of a byte string into code points, with explicit
fuel (any fuel at least the length of the input is enough, since every step
consumes at least one byte). -/
def utf8DecodeFuel : Nat → List Nat → Option (List Nat)
  | _, [] => some []
  | 0, _ :: _ => none
  | fuel + 1, b :: r =>
    if b < 128 then (utf8DecodeFuel fuel r).map (fun t => b :: t)
    else if b < 194 then none
    else if b < 224 then
      match r with
      | b2 :: r' =>
        if contByte b2 then
          (utf8DecodeFuel fuel r').map
            (fun t => ((b - 192) * 64 + (b2 - 128)) :: t)
        else none
      | _ => none
    else if b < 240 then
      match r with
      | b2 :: b3 :: r' =>
        if contByte b2 && contByte b3 then
          (utf8DecodeFuel fuel r').map
            (fun t => ((b - 224) * 4096 + (b2 - 128) * 64 + (b3 - 128)) :: t)
        else none
      | _ => none
    else if b < 245 then
      match r with
      | b2 :: b3 :: b4 :: r' =>
        if contByte b2 && contByte b3 && contByte b4 then
          (utf8DecodeFuel fuel r').map
            (fun t => ((b - 240) * 262144 + (b2 - 128) * 4096 +
              (b3 - 128) * 64 + (b4 - 128)) :: t)
        else none
      | _ => none
    else none

/-- Strict UTF-8 decoding of a byte string into code points. -/
def utf8Decode (l : List Nat) : Option (List Nat) :=
  utf8DecodeFuel l.length l

/-- The UTF-8 encoding of a string of scalar values consists of bytes. -/
theorem utf8Encode_bytes (s : List Nat) (h : ∀ c ∈ s, c < 1114112) :
    ∀ x ∈ utf8Encode s, x < 256 := by
  intro x hx
  simp only [utf8Encode, List.mem_flatten, List.mem_map] at hx
  obtain ⟨l, ⟨c, hc, hl⟩, hxl⟩ := hx
  subst hl
  have hc' : c < 1114112 := h c hc
  unfold utf8EncodeChar at hxl
  split_ifs at hxl with h1 h2 h3 <;> simp at hxl <;> omega

set_option maxRecDepth 10000 in
/-- UTF-8 decoding inverts UTF-8 encoding on strings of Unicode scalar
values, for any sufficient fuel. -/
theorem utf8DecodeFuel_encode (s : List Nat) :
    ∀ fuel : Nat, (utf8Encode s).length ≤ fuel →
    (∀ c ∈ s, validScalar c = true) →
    utf8DecodeFuel fuel (utf8Encode s) = some s := by
  induction s with
  | nil =>
    intro fuel _ _
    cases fuel <;> rfl
  | cons c rest ih =>
    intro fuel hlen hval
    have hc : c < 1114112 ∧ (c < 55296 ∨ 57344 ≤ c) := by
      have := hval c (List.mem_cons_self c rest)
      simpa [validScalar] using this
    have hrest : ∀ f : Nat, (utf8Encode rest).length ≤ f →
        utf8DecodeFuel f (utf8Encode rest) = some rest :=
      fun f hf => ih f hf (fun x hx => hval x (List.mem_cons_of_mem c hx))
    have hflat : utf8Encode (c :: rest) =
        utf8EncodeChar c ++ utf8Encode rest := by
      simp [utf8Encode]
    rw [hflat] at hlen ⊢
    rw [List.length_append] at hlen
    have hcharlen : 1 ≤ (utf8EncodeChar c).length := by
      unfold utf8EncodeChar
      split_ifs <;> simp
    obtain ⟨f, rfl⟩ : ∃ f, fuel = f + 1 := ⟨fuel - 1, by omega⟩
    by_cases h1 : c < 128
    · rw [show utf8EncodeChar c = [c] from by simp [utf8EncodeChar, h1]]
      simp only [List.cons_append, List.nil_append, List.append_eq,
        utf8DecodeFuel, if_pos h1]
      rw [hrest f (by
        rw [show utf8EncodeChar c = [c] from by
          simp [utf8EncodeChar, h1]] at hlen
        simp at hlen
        omega)]
      rfl
    · by_cases h2 : c < 2048
      · have hch : utf8EncodeChar c = [192 + c / 64, 128 + c % 64] := by
          rw [utf8EncodeChar, if_neg h1, if_pos h2]
        rw [hch]
        rw [hch, List.length_cons, List.length_cons, List.length_nil] at hlen
        simp only [List.cons_append, List.nil_append, List.append_eq,
          utf8DecodeFuel]
        iterate 2 rw [if_neg (by omega)]
        rw [if_pos (by omega)]
        have hcond : contByte (128 + c % 64) = true := by
          simp [contByte]
          omega
        simp only [hcond, if_true]
        rw [hrest f (by omega)]
        simp only [Option.map_some']
        congr 2
        omega
      · by_cases h3 : c < 65536
        · have hch : utf8EncodeChar c =
              [224 + c / 4096, 128 + c / 64 % 64, 128 + c % 64] := by
            rw [utf8EncodeChar, if_neg h1, if_neg h2, if_pos h3]
          rw [hch]
          rw [hch, List.length_cons, List.length_cons, List.length_cons,
            List.length_nil] at hlen
          simp only [List.cons_append, List.nil_append, List.append_eq,
            utf8DecodeFuel]
          iterate 3 rw [if_neg (by omega)]
          rw [if_pos (by omega)]
          have hcond : (contByte (128 + c / 64 % 64) &&
              contByte (128 + c % 64)) = true := by
            simp [contByte]
            omega
          simp only [hcond, if_true]
          rw [hrest f (by omega)]
          simp only [Option.map_some']
          congr 2
          omega
        · have hch : utf8EncodeChar c =
              [240 + c / 262144, 128 + c / 4096 % 64, 128 + c / 64 % 64,
                128 + c % 64] := by
            rw [utf8EncodeChar, if_neg h1, if_neg h2, if_neg h3]
          rw [hch]
          rw [hch, List.length_cons, List.length_cons, List.length_cons,
            List.length_cons, List.length_nil] at hlen
          simp only [List.cons_append, List.nil_append, List.append_eq,
            utf8DecodeFuel]
          iterate 4 rw [if_neg (by omega)]
          rw [if_pos (by omega)]
          have hcond : (contByte (128 + c / 4096 % 64) &&
              contByte (128 + c / 64 % 64) && contByte (128 + c % 64)) =
                true := by
            simp [contByte]
            omega
          simp only [hcond, if_true]
          rw [hrest f (by omega)]
          simp only [Option.map_some']
          congr 2
          omega

/-- UTF-8 decoding inverts UTF-8 encoding. -/
theorem utf8Decode_encode (s : List Nat)
    (h : ∀ c ∈ s, validScalar c = true) :
    utf8Decode (utf8Encode s) = some s :=
  utf8DecodeFuel_encode s (utf8Encode s).length le_rfl h

/-- On ASCII byte strings UTF-8 decoding is the identity. -/
theorem utf8Decode_ascii (bs : List Nat) (h : ∀ x ∈ bs, x < 128) :
    utf8Decode bs = some bs := by
  have hv : ∀ c ∈ bs, validScalar c = true := by
    intro c hc
    have := h c hc
    simp [validScalar]
    omega
  have hrt := utf8Decode_encode bs hv
  rwa [utf8Encode_ascii bs h] at hrt

/-- Hex digit value, accepting both cases as `urllib.parse.unquote` and
`json` do. -/
def hexVal (c : Nat) : Option Nat :=
  if 48 ≤ c ∧ c ≤ 57 then some (c - 48)
  else if 65 ≤ c ∧ c ≤ 70 then some (c - 55)
  else if 97 ≤ c ∧ c ≤ 102 then some (c - 87)
  else none

theorem hexVal_upper (n : Nat) (h : n < 16) :
    hexVal (hexDigitUpper n) = some n := by
  interval_cases n <;> rfl

theorem hexVal_lower (n : Nat) (h : n < 16) :
    hexVal (hexDigitLower n) = some n := by
  interval_cases n <;> rfl

/-- Byte-level decoding of a `quote_plus`-encoded ASCII string: `+` becomes
a space, `%XX` becomes the byte `XX`, anything else is itself (the
percent-decoding half of `urllib.parse.unquote_plus`), with an explicit
recursion fuel. -/
def percentDecodeFuel : Nat → List Nat → Option (List Nat)
  | _, [] => some []
  | 0, _ :: _ => none
  | fuel + 1, c :: r =>
    if c = 43 then (percentDecodeFuel fuel r).map (fun t => 32 :: t)
    else if c = 37 then
      match r with
      | h1 :: h2 :: r' =>
        match hexVal h1, hexVal h2 with
        | some d1, some d2 =>
          (percentDecodeFuel fuel r').map (fun t => (d1 * 16 + d2) :: t)
        | _, _ => none
      | _ => none
    else (percentDecodeFuel fuel r).map (fun t => c :: t)

/-- Percent-decoding of a `quote_plus`-encoded string. -/
def percentDecode (l : List Nat) : Option (List Nat) :=
  percentDecodeFuel l.length l

/-- Percent-decoding inverts byte-level `quote_plus`, for any sufficient
fuel. -/
theorem percentDecodeFuel_quotePlusBytes (bs : List Nat) :
    ∀ fuel, (quotePlusBytes bs).length ≤ fuel →
    (∀ b ∈ bs, b < 256) →
    percentDecodeFuel fuel (quotePlusBytes bs) = some bs := by
  induction bs with
  | nil =>
    intro fuel _ _
    cases fuel <;> rfl
  | cons b bs ih =>
    intro fuel hf hb
    have hb256 : b < 256 := hb b (List.mem_cons_self b bs)
    have hbs : ∀ x ∈ bs, x < 256 := fun x hx =>
      hb x (List.mem_cons_of_mem b hx)
    have hsplit : quotePlusBytes (b :: bs) =
        quoteByte b ++ quotePlusBytes bs := by
      simp [quotePlusBytes]
    rw [hsplit] at hf ⊢
    by_cases hs : urlSafe b = true
    · have hq : quoteByte b = [b] := by rw [quoteByte, if_pos hs]
      rw [hq] at hf ⊢
      have h43 : ¬(b = 43) := by
        intro h
        rw [h] at hs
        exact absurd hs (by decide)
      have h37 : ¬(b = 37) := by
        intro h
        rw [h] at hs
        exact absurd hs (by decide)
      simp only [List.length_cons, List.length_append, List.length_nil,
        List.singleton_append] at hf ⊢
      obtain ⟨f, rfl⟩ : ∃ f, fuel = f + 1 := ⟨fuel - 1, by omega⟩
      simp only [percentDecodeFuel]
      rw [if_neg h43, if_neg h37, ih f (by omega) hbs]
      rfl
    · by_cases h32 : b = 32
      · have hq : quoteByte b = [43] := by
          rw [quoteByte, if_neg (by simp [hs]), if_pos h32]
        rw [hq] at hf ⊢
        simp only [List.length_append, List.length_cons, List.length_nil,
          List.singleton_append] at hf ⊢
        obtain ⟨f, rfl⟩ : ∃ f, fuel = f + 1 := ⟨fuel - 1, by omega⟩
        simp only [percentDecodeFuel]
        rw [if_pos trivial, ih f (by omega) hbs]
        rw [h32]
        rfl
      · have hq : quoteByte b =
            [37, hexDigitUpper (b / 16), hexDigitUpper (b % 16)] := by
          rw [quoteByte, if_neg (by simp [hs]), if_neg h32]
        rw [hq] at hf ⊢
        simp only [List.length_append, List.length_cons, List.length_nil,
          List.cons_append, List.nil_append] at hf ⊢
        obtain ⟨f, rfl⟩ : ∃ f, fuel = f + 1 := ⟨fuel - 1, by omega⟩
        simp only [percentDecodeFuel]
        rw [if_pos trivial]
        rw [hexVal_upper (b / 16) (by omega), hexVal_upper (b % 16) (by omega)]
        rw [ih f (by omega) hbs]
        simp only [Option.map_some']
        have hdm : b / 16 * 16 + b % 16 = b := by omega
        rw [hdm, if_neg (by decide)]

theorem urlSafe_hexDigitUpper (d : Nat) (h : d < 16) :
    urlSafe (hexDigitUpper d) = true := by
  interval_cases d <;> decide

/-- Every byte of byte-level `quote_plus` output is a safe byte, `+`
or `%` (the hex digits of an escape are themselves safe bytes). -/
theorem mem_quotePlusBytes (bs : List Nat) (hb : ∀ b ∈ bs, b < 256)
    (x : Nat) (hx : x ∈ quotePlusBytes bs) :
    (urlSafe x || x = 43 || x = 37) = true := by
  simp only [quotePlusBytes, List.mem_flatten, List.mem_map] at hx
  obtain ⟨l, ⟨b, hbmem, hl⟩, hxl⟩ := hx
  subst hl
  have hb256 := hb b hbmem
  unfold quoteByte at hxl
  split_ifs at hxl with h1 h2
  · simp only [List.mem_singleton] at hxl
    subst hxl
    simp [h1]
  · simp only [List.mem_singleton] at hxl
    subst hxl
    decide
  · simp only [List.mem_cons, List.not_mem_nil, or_false] at hxl
    rcases hxl with h | h | h
    · subst h
      decide
    · subst h
      simp [urlSafe_hexDigitUpper (b / 16) (by omega)]
    · subst h
      simp [urlSafe_hexDigitUpper (b % 16) (by omega)]

theorem not_mem_quotePlusBytes (c : Nat)
    (hc : (urlSafe c || c = 43 || c = 37) = false)
    (bs : List Nat) (hb : ∀ b ∈ bs, b < 256) :
    c ∉ quotePlusBytes bs := by
  intro hmem
  have := mem_quotePlusBytes bs hb c hmem
  rw [hc] at this
  exact Bool.false_ne_true this

theorem quotePlusBytes_ascii (bs : List Nat) (hb : ∀ b ∈ bs, b < 256) :
    ∀ x ∈ quotePlusBytes bs, x < 128 := by
  intro x hx
  have h := mem_quotePlusBytes bs hb x hx
  simp only [Bool.or_eq_true, decide_eq_true_eq] at h
  rcases h with (hs | h43) | h37
  · simp only [urlSafe, Bool.or_eq_true, Bool.and_eq_true,
      decide_eq_true_eq] at hs
    omega
  · omega
  · omega

/-- `urllib.parse.unquote_plus`: percent-decode the bytes, then UTF-8
decode them into text. -/
def unquotePlus (l : List Nat) : Option (List Nat) :=
  (percentDecode l).bind utf8Decode

/-- `unquote_plus` inverts `quote_plus` on strings of Unicode scalar
values. -/
theorem unquotePlus_quotePlus (s : List Nat)
    (h : ∀ c ∈ s, validScalar c = true) :
    unquotePlus (quotePlus s) = some s := by
  have hbytes : ∀ b ∈ utf8Encode s, b < 256 := by
    apply utf8Encode_bytes
    intro c hc
    have := h c hc
    simp only [validScalar, Bool.and_eq_true, decide_eq_true_eq] at this
    omega
  have hpd : percentDecode (quotePlus s) = some (utf8Encode s) := by
    unfold percentDecode quotePlus
    exact percentDecodeFuel_quotePlusBytes (utf8Encode s) _ le_rfl hbytes
  unfold unquotePlus
  rw [hpd]
  exact utf8Decode_encode s h

/-- Splitting one `key=value` item of a query string at its first `=`,
following the spec's description of parsing a query string back. -/
def parseParam (p : List Nat) : List Nat × List Nat :=
  (p.takeWhile (fun c => c != 61), (p.dropWhile (fun c => c != 61)).drop 1)

/-- Parsing a query string back into its `key=value` items, following the
spec's description: split on `&`, then split each item at its first `=`. -/
def parseQS (qs : List Nat) : List (List Nat × List Nat) :=
  (splitOnChar 38 qs).map parseParam

theorem takeWhile_ne_append (a b : List Nat) (ha : (61 : Nat) ∉ a) :
    (a ++ 61 :: b).takeWhile (fun c => c != 61) = a := by
  induction a with
  | nil => simp
  | cons x a' ih =>
    have hx : (x != 61) = true := by
      simp only [bne_iff_ne, ne_eq]
      intro hc
      exact ha (by simp [hc])
    have ha' : (61 : Nat) ∉ a' := fun hc => ha (List.mem_cons_of_mem x hc)
    simp only [List.cons_append, List.takeWhile_cons, hx, if_true, ih ha']

theorem dropWhile_ne_append (a b : List Nat) (ha : (61 : Nat) ∉ a) :
    (a ++ 61 :: b).dropWhile (fun c => c != 61) = 61 :: b := by
  induction a with
  | nil => simp
  | cons x a' ih =>
    have hx : (x != 61) = true := by
      simp only [bne_iff_ne, ne_eq]
      intro hc
      exact ha (by simp [hc])
    have ha' : (61 : Nat) ∉ a' := fun hc => ha (List.mem_cons_of_mem x hc)
    simp only [List.cons_append, List.dropWhile_cons, hx, if_true, ih ha']

theorem parseParam_append (a b : List Nat) (ha : (61 : Nat) ∉ a) :
    parseParam (a ++ 61 :: b) = (a, b) := by
  simp [parseParam, takeWhile_ne_append a b ha, dropWhile_ne_append a b ha]

/-- Parsing the query string built by `__build_url` recovers exactly the
three parameters `app_id`, `button_request` and `customization`, each with
its still-quoted value. -/
theorem parseQS_queryString (app_id enc cust : List Nat)
    (happ : ∀ b ∈ utf8Encode app_id, b < 256)
    (henc : ∀ b ∈ enc, b < 256)
    (hcust : ∀ b ∈ utf8Encode cust, b < 256) :
    parseQS (xapo_tools.queryString app_id enc cust) =
      [(codes "app_id", quotePlus app_id),
       (codes "button_request", quotePlusBytes enc),
       (codes "customization", quotePlus cust)] := by
  have hk1 : quotePlus (codes "app_id") = codes "app_id" := by decide
  have hk2 : quotePlus (codes "button_request") =
      codes "button_request" := by decide
  have hk3 : quotePlus (codes "customization") =
      codes "customization" := by decide
  have hshape : xapo_tools.queryString app_id enc cust =
      (codes "app_id" ++ 61 :: quotePlus app_id) ++ 38 ::
        ((codes "button_request" ++ 61 :: quotePlusBytes enc) ++ 38 ::
          (codes "customization" ++ 61 :: quotePlus cust)) := by
    unfold xapo_tools.queryString
    rw [hk1, hk2, hk3]
    simp [List.append_assoc]
  have hqp : ∀ b ∈ utf8Encode app_id, b < 256 := happ
  have h38app : (38 : Nat) ∉ quotePlus app_id :=
    not_mem_quotePlusBytes 38 (by decide) _ happ
  have h38enc : (38 : Nat) ∉ quotePlusBytes enc :=
    not_mem_quotePlusBytes 38 (by decide) _ henc
  have h38cust : (38 : Nat) ∉ quotePlus cust :=
    not_mem_quotePlusBytes 38 (by decide) _ hcust
  have h38a : (38 : Nat) ∉ codes "app_id" ++ 61 :: quotePlus app_id := by
    intro hc
    simp only [List.mem_append, List.mem_cons] at hc
    rcases hc with hc | hc | hc
    · exact absurd hc (by decide)
    · exact absurd hc (by decide)
    · exact h38app hc
  have h38b : (38 : Nat) ∉
      codes "button_request" ++ 61 :: quotePlusBytes enc := by
    intro hc
    simp only [List.mem_append, List.mem_cons] at hc
    rcases hc with hc | hc | hc
    · exact absurd hc (by decide)
    · exact absurd hc (by decide)
    · exact h38enc hc
  have h38c : (38 : Nat) ∉
      codes "customization" ++ 61 :: quotePlus cust := by
    intro hc
    simp only [List.mem_append, List.mem_cons] at hc
    rcases hc with hc | hc | hc
    · exact absurd hc (by decide)
    · exact absurd hc (by decide)
    · exact h38cust hc
  unfold parseQS
  rw [hshape, splitOnChar_sep 38 _ _ h38a, splitOnChar_sep 38 _ _ h38b,
    splitOnChar_not_mem h38c]
  simp only [List.map_cons, List.map_nil]
  rw [parseParam_append _ _ (by decide), parseParam_append _ _ (by decide),
    parseParam_append _ _ (by decide)]

theorem b64Char_lt (v : Nat) : b64Char v < 128 := by
  unfold b64Char
  split_ifs <;> omega

theorem b64encode_ascii (l : List Nat) : ∀ x ∈ b64encode l, x < 128 := by
  suffices H : ∀ n (l : List Nat), l.length ≤ n →
      ∀ x ∈ b64encode l, x < 128 from H l.length l le_rfl
  intro n
  induction n with
  | zero =>
    intro l hl x hx
    have : l = [] := List.eq_nil_of_length_eq_zero (by omega)
    subst this
    simp [b64encode] at hx
  | succ n ih =>
    intro l hl x hx
    rcases l with _ | ⟨a, _ | ⟨b, _ | ⟨c, rest⟩⟩⟩
    · simp [b64encode] at hx
    · simp only [b64encode, List.mem_cons, List.not_mem_nil, or_false] at hx
      rcases hx with rfl | rfl | rfl | rfl
      · exact b64Char_lt _
      · exact b64Char_lt _
      · omega
      · omega
    · simp only [b64encode, List.mem_cons, List.not_mem_nil, or_false] at hx
      rcases hx with rfl | rfl | rfl | rfl
      · exact b64Char_lt _
      · exact b64Char_lt _
      · exact b64Char_lt _
      · omega
    · simp only [b64encode, List.mem_cons] at hx
      rcases hx with rfl | rfl | rfl | rfl | hx
      · exact b64Char_lt _
      · exact b64Char_lt _
      · exact b64Char_lt _
      · exact b64Char_lt _
      · exact ih rest (by simp at hl; omega) x hx

theorem b64encode_ne_nil (a : Nat) (l : List Nat) :
    b64encode (a :: l) ≠ [] := by
  rcases l with _ | ⟨b, _ | ⟨c, rest⟩⟩ <;> simp [b64encode]

theorem digitChar_lt (m : Nat) : (Nat.digitChar m).toNat < 128 := by
  rcases Nat.lt_or_ge m 16 with h | h
  · interval_cases m <;> decide
  · have h16 : Nat.digitChar m = '*' := by
      unfold Nat.digitChar
      iterate 16 rw [if_neg (by omega)]
    rw [h16]
    decide

theorem toDigitsCore_ascii (b : Nat) (f : Nat) :
    ∀ (n : Nat) (acc : List Char), (∀ c ∈ acc, c.toNat < 128) →
    ∀ c ∈ Nat.toDigitsCore b f n acc, c.toNat < 128 := by
  induction f with
  | zero =>
    intro n acc hacc c hc
    rw [Nat.toDigitsCore] at hc
    exact hacc c hc
  | succ f ih =>
    intro n acc hacc c hc
    rw [Nat.toDigitsCore] at hc
    have hcons : ∀ x ∈ Nat.digitChar (n % b) :: acc, x.toNat < 128 := by
      intro x hx
      rcases List.mem_cons.1 hx with rfl | hx
      · exact digitChar_lt _
      · exact hacc x hx
    split at hc
    · exact hcons c hc
    · exact ih (n / b) (Nat.digitChar (n % b) :: acc) hcons c hc

theorem natDigits_ascii (n : Nat) : ∀ x ∈ natDigits n, x < 128 := by
  intro x hx
  simp only [natDigits, Nat.toDigits, List.mem_map] at hx
  obtain ⟨c, hc, rfl⟩ := hx
  exact toDigitsCore_ascii 10 (n + 1) n [] (by simp) c hc

theorem intLit_ascii (i : Int) : ∀ x ∈ intLit i, x < 128 := by
  intro x hx
  unfold intLit at hx
  split_ifs at hx
  · rcases List.mem_cons.1 hx with rfl | hx
    · omega
    · exact natDigits_ascii _ x hx
  · exact natDigits_ascii _ x hx

theorem hexDigitLower_lt (d : Nat) (h : d < 16) : hexDigitLower d < 128 := by
  unfold hexDigitLower
  split_ifs <;> omega

theorem hex4Lower_ascii (n : Nat) : ∀ x ∈ hex4Lower n, x < 128 := by
  intro x hx
  simp only [hex4Lower, List.mem_cons, List.not_mem_nil, or_false] at hx
  rcases hx with rfl | rfl | rfl | rfl <;>
    exact hexDigitLower_lt _ (Nat.mod_lt _ (by norm_num))

theorem jsonEscapeChar_ascii (c : Nat) : ∀ x ∈ jsonEscapeChar c, x < 128 := by
  intro x hx
  unfold jsonEscapeChar at hx
  by_cases h1 : c = 34
  · rw [if_pos h1] at hx
    simp only [List.mem_cons, List.not_mem_nil, or_false] at hx
    rcases hx with rfl | rfl <;> omega
  rw [if_neg h1] at hx
  by_cases h2 : c = 92
  · rw [if_pos h2] at hx
    simp only [List.mem_cons, List.not_mem_nil, or_false] at hx
    rcases hx with rfl | rfl <;> omega
  rw [if_neg h2] at hx
  by_cases h3 : c = 8
  · rw [if_pos h3] at hx
    simp only [List.mem_cons, List.not_mem_nil, or_false] at hx
    rcases hx with rfl | rfl <;> omega
  rw [if_neg h3] at hx
  by_cases h4 : c = 9
  · rw [if_pos h4] at hx
    simp only [List.mem_cons, List.not_mem_nil, or_false] at hx
    rcases hx with rfl | rfl <;> omega
  rw [if_neg h4] at hx
  by_cases h5 : c = 10
  · rw [if_pos h5] at hx
    simp only [List.mem_cons, List.not_mem_nil, or_false] at hx
    rcases hx with rfl | rfl <;> omega
  rw [if_neg h5] at hx
  by_cases h6 : c = 12
  · rw [if_pos h6] at hx
    simp only [List.mem_cons, List.not_mem_nil, or_false] at hx
    rcases hx with rfl | rfl <;> omega
  rw [if_neg h6] at hx
  by_cases h7 : c = 13
  · rw [if_pos h7] at hx
    simp only [List.mem_cons, List.not_mem_nil, or_false] at hx
    rcases hx with rfl | rfl <;> omega
  rw [if_neg h7] at hx
  by_cases h8 : c < 32
  · rw [if_pos h8] at hx
    simp only [List.mem_cons] at hx
    rcases hx with rfl | rfl | hx
    · omega
    · omega
    · exact hex4Lower_ascii c x hx
  rw [if_neg h8] at hx
  by_cases h9 : c < 127
  · rw [if_pos h9] at hx
    simp only [List.mem_cons, List.not_mem_nil, or_false] at hx
    subst hx
    omega
  rw [if_neg h9] at hx
  by_cases h10 : c < 65536
  · rw [if_pos h10] at hx
    simp only [List.mem_cons] at hx
    rcases hx with rfl | rfl | hx
    · omega
    · omega
    · exact hex4Lower_ascii c x hx
  rw [if_neg h10, List.mem_append] at hx
  rcases hx with hx | hx <;>
  · simp only [List.mem_cons] at hx
    rcases hx with rfl | rfl | hx
    · omega
    · omega
    · exact hex4Lower_ascii _ x hx

theorem jsonStringLit_ascii (s : List Nat) :
    ∀ x ∈ jsonStringLit s, x < 128 := by
  intro x hx
  simp only [jsonStringLit, List.mem_cons, List.mem_append, List.mem_flatten,
    List.mem_map, List.not_mem_nil, or_false] at hx
  rcases hx with (rfl | ⟨l, ⟨c, hc, rfl⟩, hxl⟩) | rfl
  · omega
  · exact jsonEscapeChar_ascii c x hxl
  · omega

theorem renderPairs_ascii (ps : List (List Nat × List Nat))
    (hv : ∀ p ∈ ps, ∀ x ∈ p.2, x < 128) :
    ∀ x ∈ renderPairs ps, x < 128 := by
  induction ps with
  | nil => simp [renderPairs]
  | cons p rest ih =>
    obtain ⟨k, v⟩ := p
    have hvv : ∀ x ∈ v, x < 128 := hv (k, v) (List.mem_cons_self _ _)
    have hrest : ∀ p ∈ rest, ∀ x ∈ p.2, x < 128 := fun p hp =>
      hv p (List.mem_cons_of_mem _ hp)
    intro x hx
    cases rest with
    | nil =>
      simp only [renderPairs, List.mem_append, List.mem_cons,
        List.not_mem_nil, or_false] at hx
      rcases hx with hx | (rfl | rfl) | hx
      · exact jsonStringLit_ascii k x hx
      · omega
      · omega
      · exact hvv x hx
    | cons q rest' =>
      simp only [renderPairs, List.mem_append, List.mem_cons,
        List.not_mem_nil, or_false] at hx
      rcases hx with hx | (rfl | rfl) | hx | (rfl | rfl) | hx
      · exact jsonStringLit_ascii k x hx
      · omega
      · omega
      · exact hvv x hx
      · omega
      · omega
      · exact ih hrest x hx

theorem renderObj_ascii (ps : List (List Nat × List Nat))
    (hv : ∀ p ∈ ps, ∀ x ∈ p.2, x < 128) :
    ∀ x ∈ renderObj ps, x < 128 := by
  intro x hx
  simp only [renderObj, List.mem_append, List.mem_cons, List.not_mem_nil,
    or_false] at hx
  rcases hx with rfl | hx | rfl
  · omega
  · exact renderPairs_ascii ps hv x hx
  · omega

/-- `json.dumps` with its default `ensure_ascii=True` always produces pure
ASCII: the serialized config payload passes the implicit ASCII encode. -/
theorem jsonConfig_ascii (c : xapo_tools.MicroPaymentConfig) :
    ∀ x ∈ xapo_tools.jsonConfig c, x < 128 := by
  apply renderObj_ascii
  intro p hp
  simp only [xapo_tools.configPairs, List.mem_cons, List.not_mem_nil,
    or_false] at hp
  rcases hp with rfl | rfl | rfl | rfl | rfl | rfl | rfl | rfl | rfl
  · exact jsonStringLit_ascii _
  · exact jsonStringLit_ascii _
  · exact jsonStringLit_ascii _
  · exact jsonStringLit_ascii _
  · exact jsonStringLit_ascii _
  · exact jsonStringLit_ascii _
  · exact intLit_ascii _
  · exact natDigits_ascii _
  · exact jsonStringLit_ascii _

/-- `customization` is likewise pure ASCII for every `pay_type`. -/
theorem customization_ascii (p : List Nat) :
    ∀ x ∈ xapo_tools.customization p, x < 128 := by
  apply renderObj_ascii
  intro q hq
  simp only [List.mem_cons, List.not_mem_nil, or_false] at hq
  subst hq
  exact jsonStringLit_ascii _

/-- ECB with the identity per-block map is the identity. -/
theorem ecbEncrypt_id (key : List Nat) (l : List Nat) :
    ecbEncrypt (idCipher.enc key) l = l := by
  suffices H : ∀ n (l : List Nat), l.length ≤ n →
      ecbEncrypt (idCipher.enc key) l = l from H l.length l le_rfl
  intro n
  induction n with
  | zero =>
    intro l h
    have : l = [] := List.eq_nil_of_length_eq_zero (by omega)
    subst this
    simp [ecbEncrypt]
  | succ n ih =>
    intro l h
    match l, h with
    | [], _ => simp [ecbEncrypt]
    | b :: rest, h =>
      rw [ecbEncrypt]
      have hdrop : ((b :: rest).drop 16).length ≤ n := by
        simp only [List.length_drop, List.length_cons]
        simp only [List.length_cons] at h
        omega
      rw [ih _ hdrop]
      exact List.take_append_drop 16 (b :: rest)

/-- Success case of the codec: an ASCII payload and a valid ASCII key make
`encrypt` return the base64 of the ECB encryption of the padded payload. -/
theorem encrypt_ok (C : BlockCipher) (payload app_secret : List Nat)
    (hp : ∀ x ∈ payload, x < 128)
    (hs : ∀ x ∈ app_secret, x < 128)
    (hl : aesKeySizeOk app_secret.length = true) :
    xapo_utils.encrypt C payload app_secret =
      .ok (b64encode (ecbEncrypt (C.enc app_secret)
        (xapo_utils.pkcs7_padding payload 16))) := by
  have h1 : asciiEncode app_secret = .ok app_secret := by
    unfold asciiEncode
    rw [if_pos]
    rw [List.all_eq_true]
    intro x hx
    simpa using hs x hx
  have hpad : ∀ x ∈ xapo_utils.pkcs7_padding payload 16, x < 128 := by
    intro x hx
    unfold xapo_utils.pkcs7_padding at hx
    rw [List.mem_append] at hx
    rcases hx with hx | hx
    · exact hp x hx
    · rw [List.mem_replicate] at hx
      omega
  have h2 : asciiEncode (xapo_utils.pkcs7_padding payload 16) =
      .ok (xapo_utils.pkcs7_padding payload 16) := by
    unfold asciiEncode
    rw [if_pos]
    rw [List.all_eq_true]
    intro x hx
    simpa using hpad x hx
  unfold xapo_utils.encrypt
  rw [h1]
  simp only [hl, if_true, h2]

/-- The escaped body of a JSON string literal (the part between the
quotes). -/
def jsonEscape (s : List Nat) : List Nat :=
  (s.map jsonEscapeChar).flatten

/-- Reading four hex digits of a `\uXXXX` escape, as a JSON reader does. -/
def readHex4 : List Nat → Option (Nat × List Nat)
  | k1 :: k2 :: k3 :: k4 :: r =>
    (hexVal k1).bind fun d1 =>
      (hexVal k2).bind fun d2 =>
        (hexVal k3).bind fun d3 =>
          (hexVal k4).map fun d4 =>
            (d1 * 4096 + d2 * 256 + d3 * 16 + d4, r)
  | _ => none

/-- Reading the remainder of a `\u` escape: a BMP scalar stands for itself,
a high surrogate must be followed by a second escape holding a low
surrogate, and the pair is recombined into the supplementary scalar. -/
def readUEscape (r : List Nat) : Option (Nat × List Nat) :=
  (readHex4 r).bind fun nr =>
    if 55296 ≤ nr.1 ∧ nr.1 < 56320 then
      match nr.2 with
      | 92 :: 117 :: r2 =>
        (readHex4 r2).bind fun mr =>
          if 56320 ≤ mr.1 ∧ mr.1 < 57344 then
            some (65536 + (nr.1 - 55296) * 1024 + (mr.1 - 56320), mr.2)
          else none
      | _ => none
    else if 56320 ≤ nr.1 ∧ nr.1 < 57344 then none
    else some (nr.1, nr.2)

/-- The backslash-escape branch of the JSON string reader: `recur` reads
the rest of the string after the escape. -/
def jsonEscapeBranch
    (recur : List Nat → Option (List Nat × List Nat)) :
    List Nat → Option (List Nat × List Nat)
  | [] => none
  | e :: r =>
    if e = 34 then (recur r).map (fun p => (34 :: p.1, p.2))
    else if e = 92 then (recur r).map (fun p => (92 :: p.1, p.2))
    else if e = 47 then (recur r).map (fun p => (47 :: p.1, p.2))
    else if e = 98 then (recur r).map (fun p => (8 :: p.1, p.2))
    else if e = 116 then (recur r).map (fun p => (9 :: p.1, p.2))
    else if e = 110 then (recur r).map (fun p => (10 :: p.1, p.2))
    else if e = 102 then (recur r).map (fun p => (12 :: p.1, p.2))
    else if e = 114 then (recur r).map (fun p => (13 :: p.1, p.2))
    else if e = 117 then
      (readUEscape r).bind (fun nr =>
        (recur nr.2).map (fun p => (nr.1 :: p.1, p.2)))
    else none

/-- A JSON string-literal reader for the part after the opening quote: it
undoes the escapes of `json.dumps` and returns the decoded text together
with the input after the closing quote, with an explicit recursion fuel. -/
def jsonStringBodyFuel : Nat → List Nat → Option (List Nat × List Nat)
  | _, [] => none
  | 0, _ :: _ => none
  | f + 1, c :: r =>
    if c = 34 then some ([], r)
    else if c = 92 then jsonEscapeBranch (jsonStringBodyFuel f) r
    else if c < 32 then none
    else (jsonStringBodyFuel f r).map (fun p => (c :: p.1, p.2))

/-- The JSON string-literal reader with enough fuel for its input. -/
def jsonStringBody (l : List Nat) : Option (List Nat × List Nat) :=
  jsonStringBodyFuel (l.length + 1) l

theorem readHex4_hex4Lower (n : Nat) (hn : n < 65536) (tail : List Nat) :
    readHex4 (hex4Lower n ++ tail) = some (n, tail) := by
  simp only [hex4Lower, List.cons_append, List.nil_append, readHex4]
  rw [hexVal_lower _ (by omega), hexVal_lower _ (by omega),
    hexVal_lower _ (by omega), hexVal_lower _ (by omega)]
  simp only [Option.some_bind, Option.map_some']
  have hdm : n / 4096 % 16 * 4096 + n / 256 % 16 * 256 +
      n / 16 % 16 * 16 + n % 16 = n := by omega
  rw [hdm]

theorem readUEscape_bmp (n : Nat) (hn : n < 65536)
    (hsur : ¬(55296 ≤ n ∧ n < 57344)) (tail : List Nat) :
    readUEscape (hex4Lower n ++ tail) = some (n, tail) := by
  unfold readUEscape
  rw [readHex4_hex4Lower n hn tail]
  rw [Option.some_bind]
  iterate 2 rw [if_neg (by omega)]

theorem readUEscape_supp (c : Nat) (h1 : 65536 ≤ c) (h2 : c < 1114112)
    (tail : List Nat) :
    readUEscape (hex4Lower (55296 + (c - 65536) / 1024) ++
      (92 :: 117 :: (hex4Lower (56320 + (c - 65536) % 1024) ++ tail))) =
      some (c, tail) := by
  have hdiv : (c - 65536) / 1024 < 1024 := by omega
  have hmod : (c - 65536) % 1024 < 1024 := Nat.mod_lt _ (by norm_num)
  unfold readUEscape
  rw [readHex4_hex4Lower _ (by omega) _]
  rw [Option.some_bind]
  rw [if_pos (by constructor <;> omega)]
  show (readHex4 (hex4Lower (56320 + (c - 65536) % 1024) ++ tail)).bind
      (fun mr => if 56320 ≤ mr.1 ∧ mr.1 < 57344 then
        some (65536 + (55296 + (c - 65536) / 1024 - 55296) * 1024 +
          (mr.1 - 56320), mr.2)
      else none) = some (c, tail)
  rw [readHex4_hex4Lower _ (by omega) _]
  rw [Option.some_bind]
  rw [if_pos (by constructor <;> omega)]
  have hval : 65536 + (55296 + (c - 65536) / 1024 - 55296) * 1024 +
      (56320 + (c - 65536) % 1024 - 56320) = c := by omega
  rw [hval]

/-- The JSON string reader inverts `json.dumps` escaping on strings of
Unicode scalar values, for any sufficient fuel. -/
theorem jsonStringBodyFuel_escape (s : List Nat) :
    ∀ fuel rest, (jsonEscape s).length < fuel →
    (∀ c ∈ s, validScalar c = true) →
    jsonStringBodyFuel fuel (jsonEscape s ++ 34 :: rest) = some (s, rest) := by
  induction s with
  | nil =>
    intro fuel rest hf _
    obtain ⟨f, rfl⟩ : ∃ f, fuel = f + 1 := ⟨fuel - 1, by omega⟩
    have h0 : jsonEscape ([] : List Nat) = [] := rfl
    rw [h0, List.nil_append]
    rfl
  | cons c s ih =>
    intro fuel rest hf hv
    have hc : validScalar c = true := hv c (List.mem_cons_self _ _)
    have hs : ∀ a ∈ s, validScalar a = true := fun a ha =>
      hv a (List.mem_cons_of_mem _ ha)
    have hc' : c < 1114112 ∧ (c < 55296 ∨ 57344 ≤ c) := by
      simp only [validScalar, Bool.and_eq_true, Bool.or_eq_true,
        decide_eq_true_eq] at hc
      exact hc
    have hesc : jsonEscape (c :: s) = jsonEscapeChar c ++ jsonEscape s := by
      simp [jsonEscape]
    rw [hesc] at hf ⊢
    rw [List.length_append] at hf
    rw [List.append_assoc]
    by_cases h1 : c = 34
    · subst h1
      have hl2 : (jsonEscapeChar 34).length = 2 := rfl
      obtain ⟨f, rfl⟩ : ∃ f, fuel = f + 1 := ⟨fuel - 1, by omega⟩
      rw [show jsonEscapeChar 34 ++ (jsonEscape s ++ 34 :: rest) =
        92 :: 34 :: (jsonEscape s ++ 34 :: rest) from rfl]
      rw [show jsonStringBodyFuel (f + 1)
          (92 :: 34 :: (jsonEscape s ++ 34 :: rest)) =
        (jsonStringBodyFuel f (jsonEscape s ++ 34 :: rest)).map
          (fun p => (34 :: p.1, p.2)) from rfl]
      rw [ih f rest (by omega) hs]
      rfl
    by_cases h2 : c = 92
    · subst h2
      have hl2 : (jsonEscapeChar 92).length = 2 := rfl
      obtain ⟨f, rfl⟩ : ∃ f, fuel = f + 1 := ⟨fuel - 1, by omega⟩
      rw [show jsonEscapeChar 92 ++ (jsonEscape s ++ 34 :: rest) =
        92 :: 92 :: (jsonEscape s ++ 34 :: rest) from rfl]
      rw [show jsonStringBodyFuel (f + 1)
          (92 :: 92 :: (jsonEscape s ++ 34 :: rest)) =
        (jsonStringBodyFuel f (jsonEscape s ++ 34 :: rest)).map
          (fun p => (92 :: p.1, p.2)) from rfl]
      rw [ih f rest (by omega) hs]
      rfl
    by_cases h3 : c = 8
    · subst h3
      have hl2 : (jsonEscapeChar 8).length = 2 := rfl
      obtain ⟨f, rfl⟩ : ∃ f, fuel = f + 1 := ⟨fuel - 1, by omega⟩
      rw [show jsonEscapeChar 8 ++ (jsonEscape s ++ 34 :: rest) =
        92 :: 98 :: (jsonEscape s ++ 34 :: rest) from rfl]
      rw [show jsonStringBodyFuel (f + 1)
          (92 :: 98 :: (jsonEscape s ++ 34 :: rest)) =
        (jsonStringBodyFuel f (jsonEscape s ++ 34 :: rest)).map
          (fun p => (8 :: p.1, p.2)) from rfl]
      rw [ih f rest (by omega) hs]
      rfl
    by_cases h4 : c = 9
    · subst h4
      have hl2 : (jsonEscapeChar 9).length = 2 := rfl
      obtain ⟨f, rfl⟩ : ∃ f, fuel = f + 1 := ⟨fuel - 1, by omega⟩
      rw [show jsonEscapeChar 9 ++ (jsonEscape s ++ 34 :: rest) =
        92 :: 116 :: (jsonEscape s ++ 34 :: rest) from rfl]
      rw [show jsonStringBodyFuel (f + 1)
          (92 :: 116 :: (jsonEscape s ++ 34 :: rest)) =
        (jsonStringBodyFuel f (jsonEscape s ++ 34 :: rest)).map
          (fun p => (9 :: p.1, p.2)) from rfl]
      rw [ih f rest (by omega) hs]
      rfl
    by_cases h5 : c = 10
    · subst h5
      have hl2 : (jsonEscapeChar 10).length = 2 := rfl
      obtain ⟨f, rfl⟩ : ∃ f, fuel = f + 1 := ⟨fuel - 1, by omega⟩
      rw [show jsonEscapeChar 10 ++ (jsonEscape s ++ 34 :: rest) =
        92 :: 110 :: (jsonEscape s ++ 34 :: rest) from rfl]
      rw [show jsonStringBodyFuel (f + 1)
          (92 :: 110 :: (jsonEscape s ++ 34 :: rest)) =
        (jsonStringBodyFuel f (jsonEscape s ++ 34 :: rest)).map
          (fun p => (10 :: p.1, p.2)) from rfl]
      rw [ih f rest (by omega) hs]
      rfl
    by_cases h6 : c = 12
    · subst h6
      have hl2 : (jsonEscapeChar 12).length = 2 := rfl
      obtain ⟨f, rfl⟩ : ∃ f, fuel = f + 1 := ⟨fuel - 1, by omega⟩
      rw [show jsonEscapeChar 12 ++ (jsonEscape s ++ 34 :: rest) =
        92 :: 102 :: (jsonEscape s ++ 34 :: rest) from rfl]
      rw [show jsonStringBodyFuel (f + 1)
          (92 :: 102 :: (jsonEscape s ++ 34 :: rest)) =
        (jsonStringBodyFuel f (jsonEscape s ++ 34 :: rest)).map
          (fun p => (12 :: p.1, p.2)) from rfl]
      rw [ih f rest (by omega) hs]
      rfl
    by_cases h7 : c = 13
    · subst h7
      have hl2 : (jsonEscapeChar 13).length = 2 := rfl
      obtain ⟨f, rfl⟩ : ∃ f, fuel = f + 1 := ⟨fuel - 1, by omega⟩
      rw [show jsonEscapeChar 13 ++ (jsonEscape s ++ 34 :: rest) =
        92 :: 114 :: (jsonEscape s ++ 34 :: rest) from rfl]
      rw [show jsonStringBodyFuel (f + 1)
          (92 :: 114 :: (jsonEscape s ++ 34 :: rest)) =
        (jsonStringBodyFuel f (jsonEscape s ++ 34 :: rest)).map
          (fun p => (13 :: p.1, p.2)) from rfl]
      rw [ih f rest (by omega) hs]
      rfl
    by_cases h8 : c < 32
    · have hesc8 : jsonEscapeChar c = 92 :: 117 :: hex4Lower c := by
        unfold jsonEscapeChar
        rw [if_neg h1, if_neg h2, if_neg h3, if_neg h4, if_neg h5,
          if_neg h6, if_neg h7, if_pos h8]
      have hl6 : (jsonEscapeChar c).length = 6 := by rw [hesc8]; rfl
      obtain ⟨f, rfl⟩ : ∃ f, fuel = f + 1 := ⟨fuel - 1, by omega⟩
      rw [hesc8]
      simp only [List.cons_append]
      rw [show jsonStringBodyFuel (f + 1)
          (92 :: 117 :: (hex4Lower c ++ (jsonEscape s ++ 34 :: rest))) =
        (readUEscape (hex4Lower c ++ (jsonEscape s ++ 34 :: rest))).bind
          (fun nr => (jsonStringBodyFuel f nr.2).map
            (fun p => (nr.1 :: p.1, p.2))) from rfl]
      rw [readUEscape_bmp c (by omega) (by omega) _]
      rw [Option.some_bind]
      show (jsonStringBodyFuel f (jsonEscape s ++ 34 :: rest)).map
        (fun p => (c :: p.1, p.2)) = some (c :: s, rest)
      rw [ih f rest (by omega) hs]
      rfl
    by_cases h9 : c < 127
    · have hesc9 : jsonEscapeChar c = [c] := by
        unfold jsonEscapeChar
        rw [if_neg h1, if_neg h2, if_neg h3, if_neg h4, if_neg h5,
          if_neg h6, if_neg h7, if_neg h8, if_pos h9]
      have hl1 : (jsonEscapeChar c).length = 1 := by rw [hesc9]; rfl
      obtain ⟨f, rfl⟩ : ∃ f, fuel = f + 1 := ⟨fuel - 1, by omega⟩
      rw [hesc9]
      simp only [List.cons_append, List.nil_append]
      rw [jsonStringBodyFuel]
      rw [if_neg h1, if_neg h2, if_neg (by omega : ¬c < 32)]
      rw [ih f rest (by omega) hs]
      rfl
    by_cases h10 : c < 65536
    · have hesc10 : jsonEscapeChar c = 92 :: 117 :: hex4Lower c := by
        unfold jsonEscapeChar
        rw [if_neg h1, if_neg h2, if_neg h3, if_neg h4, if_neg h5,
          if_neg h6, if_neg h7, if_neg h8, if_neg h9, if_pos h10]
      have hl6 : (jsonEscapeChar c).length = 6 := by rw [hesc10]; rfl
      obtain ⟨f, rfl⟩ : ∃ f, fuel = f + 1 := ⟨fuel - 1, by omega⟩
      rw [hesc10]
      simp only [List.cons_append]
      rw [show jsonStringBodyFuel (f + 1)
          (92 :: 117 :: (hex4Lower c ++ (jsonEscape s ++ 34 :: rest))) =
        (readUEscape (hex4Lower c ++ (jsonEscape s ++ 34 :: rest))).bind
          (fun nr => (jsonStringBodyFuel f nr.2).map
            (fun p => (nr.1 :: p.1, p.2))) from rfl]
      rw [readUEscape_bmp c (by omega) (by omega) _]
      rw [Option.some_bind]
      show (jsonStringBodyFuel f (jsonEscape s ++ 34 :: rest)).map
        (fun p => (c :: p.1, p.2)) = some (c :: s, rest)
      rw [ih f rest (by omega) hs]
      rfl
    · have hesc11 : jsonEscapeChar c =
          (92 :: 117 :: hex4Lower (55296 + (c - 65536) / 1024)) ++
            (92 :: 117 :: hex4Lower (56320 + (c - 65536) % 1024)) := by
        unfold jsonEscapeChar
        rw [if_neg h1, if_neg h2, if_neg h3, if_neg h4, if_neg h5,
          if_neg h6, if_neg h7, if_neg h8, if_neg h9, if_neg h10]
      have hl12 : (jsonEscapeChar c).length = 12 := by rw [hesc11]; rfl
      obtain ⟨f, rfl⟩ : ∃ f, fuel = f + 1 := ⟨fuel - 1, by omega⟩
      rw [hesc11]
      simp only [List.cons_append, List.append_assoc]
      rw [show jsonStringBodyFuel (f + 1)
          (92 :: 117 :: (hex4Lower (55296 + (c - 65536) / 1024) ++
            (92 :: 117 :: (hex4Lower (56320 + (c - 65536) % 1024) ++
              (jsonEscape s ++ 34 :: rest))))) =
        (readUEscape (hex4Lower (55296 + (c - 65536) / 1024) ++
            (92 :: 117 :: (hex4Lower (56320 + (c - 65536) % 1024) ++
              (jsonEscape s ++ 34 :: rest))))).bind
          (fun nr => (jsonStringBodyFuel f nr.2).map
            (fun p => (nr.1 :: p.1, p.2))) from rfl]
      rw [readUEscape_supp c (by omega) (by omega) _]
      rw [Option.some_bind]
      show (jsonStringBodyFuel f (jsonEscape s ++ 34 :: rest)).map
        (fun p => (c :: p.1, p.2)) = some (c :: s, rest)
      rw [ih f rest (by omega) hs]
      rfl

/-- JSON-decoding of the `customization` value, following the spec's words:
the value must be the object `\x7b"button_text": <string>\x7d`, and the
decoded string literal is returned. -/
def parseCustomization (s : List Nat) : Option (List Nat) :=
  if s.take (codes "\x7b\"button_text\": \"").length =
      codes "\x7b\"button_text\": \"" then
    match jsonStringBody (s.drop (codes "\x7b\"button_text\": \"").length) with
    | some (content, rest) =>
      if rest = codes "\x7d" then some content else none
    | none => none
  else none

set_option maxRecDepth 10000 in
/-- The serialized customization object decodes back to the original
`pay_type` whenever `pay_type` consists of Unicode scalar values. -/
theorem parseCustomization_customization (pt : List Nat)
    (h : ∀ c ∈ pt, validScalar c = true) :
    parseCustomization (xapo_tools.customization pt) = some pt := by
  have hshape : xapo_tools.customization pt =
      codes "\x7b\"button_text\": \"" ++ ((jsonEscape pt ++ [34]) ++ [125]) := by
    with_unfolding_all rfl
  have hassoc : ((jsonEscape pt ++ [34]) ++ [125]) =
      jsonEscape pt ++ 34 :: [125] := by
    rw [List.append_assoc]
    rfl
  unfold parseCustomization
  rw [hshape, hassoc]
  rw [List.take_left, List.drop_left]
  rw [if_pos rfl]
  have hbody : jsonStringBody (jsonEscape pt ++ 34 :: [125]) =
      some (pt, [125]) := by
    unfold jsonStringBody
    apply jsonStringBodyFuel_escape pt _ [125] _ h
    rw [List.length_append]
    simp only [List.length_cons]
    omega
  rw [hbody]
  show (if [125] = codes "\x7d" then some pt else none) = some pt
  rw [if_pos (by decide)]

/-- A byte that is neither quoting output (safe, `+`, `%`) nor one of the
separators `=`/`&` does not occur in the built query string. -/
theorem queryString_no_char (c : Nat)
    (hc : (urlSafe c || c = 43 || c = 37) = false)
    (hc61 : c ≠ 61) (hc38 : c ≠ 38)
    (app_id enc cust : List Nat)
    (happ : ∀ b ∈ utf8Encode app_id, b < 256)
    (henc : ∀ b ∈ enc, b < 256)
    (hcust : ∀ b ∈ utf8Encode cust, b < 256) :
    c ∉ xapo_tools.queryString app_id enc cust := by
  intro hmem
  have hkey : ∀ s : List Nat, (∀ b ∈ utf8Encode s, b < 256) →
      c ∉ quotePlus s := fun s hb =>
    not_mem_quotePlusBytes c hc (utf8Encode s) hb
  have hkey1 : ∀ b ∈ utf8Encode (codes "app_id"), b < 256 := by decide
  have hkey2 : ∀ b ∈ utf8Encode (codes "button_request"), b < 256 := by
    decide
  have hkey3 : ∀ b ∈ utf8Encode (codes "customization"), b < 256 := by
    decide
  unfold xapo_tools.queryString at hmem
  simp only [List.mem_append, List.mem_cons, List.not_mem_nil,
    or_false] at hmem
  rcases hmem with ((((((((((hm | hm) | hm) | hm) | hm) | hm) | hm) | hm) |
      hm) | hm) | hm)
  · exact hkey _ hkey1 hm
  · exact hc61 hm
  · exact hkey _ happ hm
  · exact hc38 hm
  · exact hkey _ hkey2 hm
  · exact hc61 hm
  · exact not_mem_quotePlusBytes c hc enc henc hm
  · exact hc38 hm
  · exact hkey _ hkey3 hm
  · exact hc61 hm
  · exact hkey _ hcust hm

/-- ECB encryption preserves the length of a block-aligned input. -/
theorem ecbEncrypt_length (C : BlockCipher) (key bs : List Nat)
    (h : bs.length % 16 = 0) :
    (ecbEncrypt (C.enc key) bs).length = bs.length := by
  suffices H : ∀ n (l : List Nat), l.length ≤ n → l.length % 16 = 0 →
      (ecbEncrypt (C.enc key) l).length = l.length from H bs.length bs le_rfl h
  intro n
  induction n with
  | zero =>
    intro l hlen _
    have : l = [] := List.eq_nil_of_length_eq_zero (by omega)
    subst this
    simp [ecbEncrypt]
  | succ n ih =>
    intro l hlen hmod
    match l, hlen, hmod with
    | [], _, _ => simp [ecbEncrypt]
    | b :: rest, hlen, hmod =>
      have hlong : 16 ≤ (b :: rest).length := by
        have hne : (b :: rest).length ≠ 0 := by simp
        omega
      have htake : ((b :: rest).take 16).length = 16 := by
        simp only [List.length_take]
        omega
      have h1 : ((b :: rest).drop 16).length ≤ n := by
        simp only [List.length_drop, List.length_cons] at *
        omega
      have h2 : ((b :: rest).drop 16).length % 16 = 0 := by
        simp only [List.length_drop]
        omega
      rw [ecbEncrypt]
      rw [List.length_append, C.enc_length key _ htake, ih _ h1 h2]
      simp only [List.length_drop]
      omega

theorem b64encode_ne_nil' (l : List Nat) (h : l ≠ []) : b64encode l ≠ [] := by
  rcases l with _ | ⟨a, r⟩
  · exact absurd rfl h
  · exact b64encode_ne_nil a r

theorem ascii_validScalar (s : List Nat) (h : ∀ x ∈ s, x < 128) :
    ∀ c ∈ s, validScalar c = true := by
  intro c hc
  have := h c hc
  simp only [validScalar, Bool.and_eq_true, Bool.or_eq_true,
    decide_eq_true_eq]
  omega

theorem validScalar_lt (c : Nat) (h : validScalar c = true) : c < 1114112 := by
  simp only [validScalar, Bool.and_eq_true, Bool.or_eq_true,
    decide_eq_true_eq] at h
  omega

/-- Claim C6 (amended): when the service URL contains no newline, the app
secret is ASCII of an accepted AES key size, and `app_id` and `pay_type`
consist of Unicode scalar values, the built widget URL equals
`service_url + "?" + query_string` for the form-urlencoded mapping of
exactly the three parameters `app_id`, `button_request` and
`customization`; both `build_iframe_widget` and `build_div_widget` return
a string containing exactly one occurrence of that URL; and parsing the
query string back recovers the builder's `app_id`, a non-empty
`button_request` (the codec output), and a `customization` value that
JSON-decodes to the object `\x7b"button_text": pay_type\x7d`. -/
theorem claim_C6_url_and_widgets (C : BlockCipher)
    (service_url app_id app_secret : List Nat)
    (config : xapo_tools.MicroPaymentConfig)
    (hsvc : (10 : Nat) ∉ service_url)
    (hsec : ∀ x ∈ app_secret, x < 128)
    (hkey : aesKeySizeOk app_secret.length = true)
    (happ : ∀ c ∈ app_id, validScalar c = true)
    (hpt : ∀ c ∈ config.pay_type, validScalar c = true) :
    ∃ url enc html_iframe html_div,
      xapo_tools.buildUrl C service_url app_id app_secret config =
        .ok url ∧
      url = service_url ++ codes "?" ++
        xapo_tools.queryString app_id enc
          (xapo_tools.customization config.pay_type) ∧
      xapo_tools.build_iframe_widget C service_url app_id app_secret
        config = .ok html_iframe ∧
      xapo_tools.build_div_widget C service_url app_id app_secret
        config = .ok html_div ∧
      countOcc url html_iframe = 1 ∧
      countOcc url html_div = 1 ∧
      parseQS (xapo_tools.queryString app_id enc
          (xapo_tools.customization config.pay_type)) =
        [(codes "app_id", quotePlus app_id),
         (codes "button_request", quotePlusBytes enc),
         (codes "customization",
           quotePlus (xapo_tools.customization config.pay_type))] ∧
      unquotePlus (quotePlus app_id) = some app_id ∧
      percentDecode (quotePlusBytes enc) = some enc ∧
      enc ≠ [] ∧
      unquotePlus (quotePlus (xapo_tools.customization config.pay_type)) =
        some (xapo_tools.customization config.pay_type) ∧
      parseCustomization (xapo_tools.customization config.pay_type) =
        some config.pay_type := by
  have hpayload : ∀ x ∈ xapo_tools.jsonConfig config, x < 128 :=
    jsonConfig_ascii config
  have hencok : xapo_utils.encrypt C (xapo_tools.jsonConfig config)
      app_secret = .ok (b64encode (ecbEncrypt (C.enc app_secret)
        (xapo_utils.pkcs7_padding (xapo_tools.jsonConfig config) 16))) :=
    encrypt_ok C _ app_secret hpayload hsec hkey
  have hbuild : xapo_tools.buildUrl C service_url app_id app_secret
      config = .ok (service_url ++ codes "?" ++
        xapo_tools.queryString app_id
          (b64encode (ecbEncrypt (C.enc app_secret)
            (xapo_utils.pkcs7_padding (xapo_tools.jsonConfig config) 16)))
          (xapo_tools.customization config.pay_type)) := by
    unfold xapo_tools.buildUrl
    rw [hencok]
    rfl
  have hencascii : ∀ x ∈ b64encode (ecbEncrypt (C.enc app_secret)
      (xapo_utils.pkcs7_padding (xapo_tools.jsonConfig config) 16)),
      x < 128 := b64encode_ascii _
  have henc256 : ∀ x ∈ b64encode (ecbEncrypt (C.enc app_secret)
      (xapo_utils.pkcs7_padding (xapo_tools.jsonConfig config) 16)),
      x < 256 := by
    intro x hx
    have := hencascii x hx
    omega
  have happbytes : ∀ b ∈ utf8Encode app_id, b < 256 :=
    utf8Encode_bytes app_id (fun c hc => validScalar_lt c (happ c hc))
  have hcustascii : ∀ x ∈ xapo_tools.customization config.pay_type,
      x < 128 := customization_ascii config.pay_type
  have hcustscal : ∀ c ∈ xapo_tools.customization config.pay_type,
      validScalar c = true := ascii_validScalar _ hcustascii
  have hcustbytes : ∀ b ∈ utf8Encode
      (xapo_tools.customization config.pay_type), b < 256 :=
    utf8Encode_bytes _ (fun c hc => validScalar_lt c (hcustscal c hc))
  have h10qs : (10 : Nat) ∉ xapo_tools.queryString app_id
      (b64encode (ecbEncrypt (C.enc app_secret)
        (xapo_utils.pkcs7_padding (xapo_tools.jsonConfig config) 16)))
      (xapo_tools.customization config.pay_type) :=
    queryString_no_char 10 (by decide) (by decide) (by decide) _ _ _
      happbytes henc256 hcustbytes
  have h10url : (10 : Nat) ∉ service_url ++ codes "?" ++
      xapo_tools.queryString app_id
        (b64encode (ecbEncrypt (C.enc app_secret)
          (xapo_utils.pkcs7_padding (xapo_tools.jsonConfig config) 16)))
        (xapo_tools.customization config.pay_type) := by
    intro hm
    rcases List.mem_append.1 hm with hm | hm
    · rcases List.mem_append.1 hm with hm | hm
      · exact hsvc hm
      · exact absurd hm (by decide)
    · exact h10qs hm
  have h63url : (63 : Nat) ∈ service_url ++ codes "?" ++
      xapo_tools.queryString app_id
        (b64encode (ecbEncrypt (C.enc app_secret)
          (xapo_utils.pkcs7_padding (xapo_tools.jsonConfig config) 16)))
        (xapo_tools.customization config.pay_type) :=
    List.mem_append.2 (Or.inl (List.mem_append.2 (Or.inr (by decide))))
  have hiframe : xapo_tools.build_iframe_widget C service_url app_id
      app_secret config = .ok (dedent (xapo_tools.iframeSnippet
        (service_url ++ codes "?" ++ xapo_tools.queryString app_id
          (b64encode (ecbEncrypt (C.enc app_secret)
            (xapo_utils.pkcs7_padding (xapo_tools.jsonConfig config) 16)))
          (xapo_tools.customization config.pay_type)))) := by
    unfold xapo_tools.build_iframe_widget
    rw [hbuild]
  have hdivw : xapo_tools.build_div_widget C service_url app_id
      app_secret config = .ok (dedent (xapo_tools.divSnippet
        (service_url ++ codes "?" ++ xapo_tools.queryString app_id
          (b64encode (ecbEncrypt (C.enc app_secret)
            (xapo_utils.pkcs7_padding (xapo_tools.jsonConfig config) 16)))
          (xapo_tools.customization config.pay_type)))) := by
    unfold xapo_tools.build_div_widget
    rw [hbuild]
  have hcount1 : ∀ url : List Nat, (10 : Nat) ∉ url → (63 : Nat) ∈ url →
      countOcc url (dedent (xapo_tools.iframeSnippet url)) = 1 := by
    intro url h10 h63
    rw [dedent_iframeSnippet url h10]
    rw [show codes "\n<iframe id=\"tipButtonFrame\" scrolling=\"no\" frameborder=\"0\"\n    style=\"border:none; overflow:hidden; height:22px;\"\n    allowTransparency=\"true\" src=\"" ++
        ((url ++ codes "\">") ++ codes "\n</iframe>\n") =
      codes "\n<iframe id=\"tipButtonFrame\" scrolling=\"no\" frameborder=\"0\"\n    style=\"border:none; overflow:hidden; height:22px;\"\n    allowTransparency=\"true\" src=\"" ++
        url ++ (codes "\">" ++ codes "\n</iframe>\n") from by
      simp [List.append_assoc]]
    exact countOcc_sandwich _ url _ h63 (by decide) (by decide)
  have hcount2 : ∀ url : List Nat, (10 : Nat) ∉ url → (63 : Nat) ∈ url →
      countOcc url (dedent (xapo_tools.divSnippet url)) = 1 := by
    intro url h10 h63
    rw [dedent_divSnippet url h10]
    rw [show codes "\n<div id=\"tipButtonDiv\" class=\"tipButtonDiv\"></div>\n<div id=\"tipButtonPopup\" class=\"tipButtonPopup\"></div>\n<script>\n    $(document).ready(function() \x7b\n        $(\"#tipButtonDiv\").load(\"" ++
        ((url ++ codes "\");") ++ codes "\n    \x7d);\n</script>\n") =
      codes "\n<div id=\"tipButtonDiv\" class=\"tipButtonDiv\"></div>\n<div id=\"tipButtonPopup\" class=\"tipButtonPopup\"></div>\n<script>\n    $(document).ready(function() \x7b\n        $(\"#tipButtonDiv\").load(\"" ++
        url ++ (codes "\");" ++ codes "\n    \x7d);\n</script>\n") from by
      simp [List.append_assoc]]
    exact countOcc_sandwich _ url _ h63 (by decide) (by decide)
  have hplen : (xapo_utils.pkcs7_padding (xapo_tools.jsonConfig config)
      16).length % 16 = 0 := by
    unfold xapo_utils.pkcs7_padding
    simp only [List.length_append, List.length_replicate]
    omega
  have hppos : 0 < (xapo_utils.pkcs7_padding (xapo_tools.jsonConfig config)
      16).length := by
    unfold xapo_utils.pkcs7_padding
    simp only [List.length_append, List.length_replicate]
    omega
  have helen : (ecbEncrypt (C.enc app_secret)
      (xapo_utils.pkcs7_padding (xapo_tools.jsonConfig config) 16)).length =
      (xapo_utils.pkcs7_padding (xapo_tools.jsonConfig config) 16).length :=
    ecbEncrypt_length C app_secret _ hplen
  have hne : b64encode (ecbEncrypt (C.enc app_secret)
      (xapo_utils.pkcs7_padding (xapo_tools.jsonConfig config) 16)) ≠ [] := by
    apply b64encode_ne_nil'
    intro hnil
    rw [hnil] at helen
    simp only [List.length_nil] at helen
    omega
  exact ⟨_, _, _, _, hbuild, rfl, hiframe, hdivw,
    hcount1 _ h10url h63url, hcount2 _ h10url h63url,
    parseQS_queryString app_id _ _ happbytes henc256 hcustbytes,
    unquotePlus_quotePlus app_id happ,
    (by unfold percentDecode
        exact percentDecodeFuel_quotePlusBytes _ _ le_rfl henc256),
    hne,
    unquotePlus_quotePlus _ hcustscal,
    parseCustomization_customization config.pay_type hpt⟩

/-- Witness: the amended C6 theorem applied to concrete inputs. -/
theorem claim_C6_url_and_widgets_witness :
    ∃ url enc html_iframe html_div,
      xapo_tools.buildUrl idCipher
        (codes "http://dev.xapo.com:8089/pay_button/show") (codes "b91")
        (codes "0123456789012345")
        ⟨codes "s1", codes "s1@x.co", codes "555", codes "r1",
          codes "r1@x.co", codes "obj", 10, 1430659819000,
          codes "Tip"⟩ = .ok url ∧
      url = codes "http://dev.xapo.com:8089/pay_button/show" ++ codes "?" ++
        xapo_tools.queryString (codes "b91") enc
          (xapo_tools.customization (codes "Tip")) ∧
      xapo_tools.build_iframe_widget idCipher
        (codes "http://dev.xapo.com:8089/pay_button/show") (codes "b91")
        (codes "0123456789012345")
        ⟨codes "s1", codes "s1@x.co", codes "555", codes "r1",
          codes "r1@x.co", codes "obj", 10, 1430659819000,
          codes "Tip"⟩ = .ok html_iframe ∧
      xapo_tools.build_div_widget idCipher
        (codes "http://dev.xapo.com:8089/pay_button/show") (codes "b91")
        (codes "0123456789012345")
        ⟨codes "s1", codes "s1@x.co", codes "555", codes "r1",
          codes "r1@x.co", codes "obj", 10, 1430659819000,
          codes "Tip"⟩ = .ok html_div ∧
      countOcc url html_iframe = 1 ∧
      countOcc url html_div = 1 ∧
      parseQS (xapo_tools.queryString (codes "b91") enc
          (xapo_tools.customization (codes "Tip"))) =
        [(codes "app_id", quotePlus (codes "b91")),
         (codes "button_request", quotePlusBytes enc),
         (codes "customization",
           quotePlus (xapo_tools.customization (codes "Tip")))] ∧
      unquotePlus (quotePlus (codes "b91")) = some (codes "b91") ∧
      percentDecode (quotePlusBytes enc) = some enc ∧
      enc ≠ [] ∧
      unquotePlus (quotePlus (xapo_tools.customization (codes "Tip"))) =
        some (xapo_tools.customization (codes "Tip")) ∧
      parseCustomization (xapo_tools.customization (codes "Tip")) =
        some (codes "Tip") :=
  claim_C6_url_and_widgets idCipher
    (codes "http://dev.xapo.com:8089/pay_button/show") (codes "b91")
    (codes "0123456789012345")
    ⟨codes "s1", codes "s1@x.co", codes "555", codes "r1",
      codes "r1@x.co", codes "obj", 10, 1430659819000, codes "Tip"⟩
    (by decide) (by decide) (by decide) (by decide) (by decide)

set_option maxRecDepth 100000 in
/-- Claim C6 counterexample: the unqualified claim fails when the service
URL contains a newline followed by indentation.  `textwrap.dedent` treats
the part of the URL after the newline as a line margin, strips it, and the
returned iframe HTML contains zero occurrences of the built URL. -/
theorem claim_C6_counterexample :
    ∃ url html,
      xapo_tools.buildUrl idCipher (codes "u\n   v") (codes "a")
        (codes "0123456789012345")
        ⟨codes "", codes "", codes "", codes "", codes "", codes "", 0, 0,
          codes ""⟩ = .ok url ∧
      xapo_tools.build_iframe_widget idCipher (codes "u\n   v") (codes "a")
        (codes "0123456789012345")
        ⟨codes "", codes "", codes "", codes "", codes "", codes "", 0, 0,
          codes ""⟩ = .ok html ∧
      countOcc url html = 0 := by
  have hencok : xapo_utils.encrypt idCipher
      (xapo_tools.jsonConfig ⟨codes "", codes "", codes "", codes "",
        codes "", codes "", 0, 0, codes ""⟩)
      (codes "0123456789012345") =
      .ok (b64encode (xapo_utils.pkcs7_padding
        (xapo_tools.jsonConfig ⟨codes "", codes "", codes "", codes "",
          codes "", codes "", 0, 0, codes ""⟩) 16)) := by
    rw [encrypt_ok idCipher _ _ (by decide) (by decide) (by decide),
      ecbEncrypt_id]
  have hbuild : xapo_tools.buildUrl idCipher (codes "u\n   v") (codes "a")
      (codes "0123456789012345")
      ⟨codes "", codes "", codes "", codes "", codes "", codes "", 0, 0,
        codes ""⟩ =
      .ok (codes "u\n   v" ++ [63] ++
        xapo_tools.queryString (codes "a")
          (b64encode (xapo_utils.pkcs7_padding
            (xapo_tools.jsonConfig ⟨codes "", codes "", codes "", codes "",
              codes "", codes "", 0, 0, codes ""⟩) 16))
          (xapo_tools.customization (codes ""))) := by
    unfold xapo_tools.buildUrl
    rw [hencok]
  have hif : xapo_tools.build_iframe_widget idCipher (codes "u\n   v")
      (codes "a") (codes "0123456789012345")
      ⟨codes "", codes "", codes "", codes "", codes "", codes "", 0, 0,
        codes ""⟩ =
      .ok (dedent (xapo_tools.iframeSnippet (codes "u\n   v" ++ [63] ++
        xapo_tools.queryString (codes "a")
          (b64encode (xapo_utils.pkcs7_padding
            (xapo_tools.jsonConfig ⟨codes "", codes "", codes "", codes "",
              codes "", codes "", 0, 0, codes ""⟩) 16))
          (xapo_tools.customization (codes ""))))) := by
    unfold xapo_tools.build_iframe_widget
    rw [hbuild]
  exact ⟨_, _, hbuild, hif, by decide⟩
